import Mathlib

/-!
# kubelite registry: a shallow embedding of `pkg/kubelite/kubelite_registry.go`

The registry keeps two Go maps (`nodes`, `podLabelsByIp`) that are fed by four
event handlers, a bootstrap `Sync`, an experimental `listPaged`, and one
`watch` loop per resource kind.

Conventions of the embedding

* The message types (`corev1.Pod`, `metav1.ObjectMeta`, ...) are declared in
  the imported package `github.com/ericchiang/k8s`, generated from proto2: every
  optional field is a Go pointer. The sources show it: the registry dereferences
  `*pod.Status.PodIP`, `*pod.Status.HostIP`, `*node.Metadata.Name`,
  `*...Namespace`, `*...ResourceVersion`, `*...Continue` and tests
  `pod.Status.PodIP == nil`, and `cmd/loader/loader.go` builds messages with
  `Metadata: &metav1.ObjectMeta{...}`, `Status: &corev1.PodStatus{...}` and
  `proto.String(...)`, leaving the other fields nil (its `node1` has a name and
  nothing else). Such a field is an `Option`; dereferencing an absent one is a
  Go panic.
* A Go map with string keys is the function that `m[k]` reads.
* A function that may panic returns a `Run`: `ok s` when it returned normally in
  state `s`, `panic s` when it panicked, `s` being the state reached so far.
  Nothing in the package recovers, so a panic ends the process.
* Calls to the external client are answered by an oracle indexed by the number
  of calls made so far, which covers every sequence of client outcomes.
* Unbounded `for` loops are run for a given number of iterations.
-/

namespace Kubelite

/-! ## Data model -/

/-- A Go `map[string]string` as carried by object metadata (labels,
annotations): the key/value pairs of the wire message. -/
abbrev StrMap := List (String × String)

/-- A Go map keyed by strings, seen through its lookup `m[k]`. -/
abbrev GoMap (V : Type) := String → Option V

/-- The empty map literal `map[string]V{}`. -/
def GoMap.empty {V : Type} : GoMap V := fun _ => none

/-- The assignment `m[k] = v`. -/
def GoMap.set {V : Type} (m : GoMap V) (k : String) (v : V) : GoMap V :=
  fun k' => if k' = k then some v else m k'

/-- The fields of `metav1.ObjectMeta` that the package reads. -/
structure ObjectMeta where
  Name : Option String
  Namespace : Option String
  ResourceVersion : Option String
  Labels : StrMap
  Annotations : StrMap
  deriving DecidableEq, Repr

/-- The fields of `corev1.PodStatus` that the package reads. -/
structure PodStatus where
  Phase : Option String
  HostIP : Option String
  PodIP : Option String
  deriving DecidableEq, Repr

/-- The message `corev1.Node`: `Metadata` is a `*metav1.ObjectMeta`. -/
structure Node where
  Metadata : Option ObjectMeta
  deriving DecidableEq, Repr

/-- The message `corev1.Pod`: `Metadata` is a `*metav1.ObjectMeta` and `Status`
a `*corev1.PodStatus`. -/
structure Pod where
  Metadata : Option ObjectMeta
  Status : Option PodStatus
  deriving DecidableEq, Repr

/-- The message `corev1.Service`. -/
structure Service where
  Metadata : Option ObjectMeta
  deriving DecidableEq, Repr

/-- The message `corev1.Endpoints`. -/
structure Endpoints where
  Metadata : Option ObjectMeta
  deriving DecidableEq, Repr

/-- A `k8s.Resource`: an interface value whose dynamic type is one of the four
tracked kinds. -/
inductive Resource where
  | node (n : Node)
  | pod (p : Pod)
  | service (s : Service)
  | endpoints (e : Endpoints)
  deriving DecidableEq, Repr

/-- The method `GetMetadata()` of a resource. -/
def Resource.GetMetadata : Resource → Option ObjectMeta
  | .node n => n.Metadata
  | .pod p => p.Metadata
  | .service s => s.Metadata
  | .endpoints e => e.Metadata

/-- The struct `podInfo`. -/
structure podInfo where
  node : String
  labels : StrMap
  annotations : StrMap
  deriving DecidableEq, Repr

/-- The maps of `K8SRegistry` (the client and the mutex carry no data of the
index). Both maps are allocated, as `NewK8SRegistry` leaves them. -/
structure K8SRegistry where
  podLabelsByIp : GoMap podInfo
  nodes : GoMap StrMap

/-- The constructor `NewK8SRegistry`: both maps start empty. -/
def NewK8SRegistry : K8SRegistry :=
  { podLabelsByIp := GoMap.empty, nodes := GoMap.empty }

/-! ## Runs that may panic -/

/-- Outcome of running a piece of Go code from a state. -/
inductive Run (σ : Type) where
  | ok (s : σ)
  | panic (s : σ)
  deriving DecidableEq

/-- The state in which the run ended. -/
def Run.state {σ : Type} : Run σ → σ
  | .ok s => s
  | .panic s => s

/-- Whether the run returned normally. -/
def Run.isOk {σ : Type} : Run σ → Bool
  | .ok _ => true
  | .panic _ => false

/-- Sequencing: the next statement runs only if the run has not panicked. -/
def Run.bind {σ : Type} (r : Run σ) (f : σ → Run σ) : Run σ :=
  match r with
  | .ok s => f s
  | .panic s => .panic s

/-! ## Event handlers -/

/-- The type of `onNode`, `onPod`, `onService`, `onEP`: the event tag, the
resource, and the registry they act on. -/
abbrev Handler := String → Resource → K8SRegistry → Run K8SRegistry

/-- The handler `onNode`.  The map assignment evaluates `*node.Metadata.Name`;
the log line after it evaluates `*node.Metadata.Namespace`. -/
def onNode : Handler := fun _ev resource kr =>
  match resource with
  | .node node =>
    match node.Metadata with
    | none => .panic kr
    | some md =>
      match md.Name with
      | none => .panic kr
      | some name =>
        let kr' := { kr with nodes := kr.nodes.set name md.Labels }
        match md.Namespace with
        | none => .panic kr'
        | some _ => .ok kr'
  | _ => .ok kr

/-- The handler `onPod`.  The guard reads `pod.Status.PodIP`; the map
assignment evaluates `*pod.Status.PodIP`, `*pod.Status.HostIP`,
`pod.Metadata.Labels` and `pod.Metadata.Annotations` before it stores; the log
line after it evaluates `*pod.Metadata.Namespace` and `*pod.Metadata.Name`. -/
def onPod : Handler := fun _ev resource kr =>
  match resource with
  | .pod pod =>
    match pod.Status with
    | none => .panic kr
    | some status =>
      match status.PodIP with
      | none => .ok kr
      | some ip =>
        match status.HostIP with
        | none => .panic kr
        | some host =>
          match pod.Metadata with
          | none => .panic kr
          | some md =>
            let info : podInfo := ⟨host, md.Labels, md.Annotations⟩
            let kr' := { kr with podLabelsByIp := kr.podLabelsByIp.set ip info }
            match md.Namespace with
            | none => .panic kr'
            | some _ =>
              match md.Name with
              | none => .panic kr'
              | some _ => .ok kr'
  | _ => .ok kr

/-- The handler `onService`: it takes and releases the lock and logs
`*svc.Metadata.Namespace` and `*svc.Metadata.Name`. -/
def onService : Handler := fun _ev resource kr =>
  match resource with
  | .service svc =>
    match svc.Metadata with
    | none => .panic kr
    | some md =>
      match md.Namespace with
      | none => .panic kr
      | some _ =>
        match md.Name with
        | none => .panic kr
        | some _ => .ok kr
  | _ => .ok kr

/-- The handler `onEP`: it takes and releases the lock and logs
`*ep.Metadata.Namespace` and `*ep.Metadata.Name`. -/
def onEP : Handler := fun _ev resource kr =>
  match resource with
  | .endpoints ep =>
    match ep.Metadata with
    | none => .panic kr
    | some md =>
      match md.Namespace with
      | none => .panic kr
      | some _ =>
        match md.Name with
        | none => .panic kr
        | some _ => .ok kr
  | _ => .ok kr

/-! ## Bootstrap: `Sync` -/

/-- The four tracked resource kinds. -/
inductive Kind where
  | Node
  | Pod
  | Service
  | Endpoints
  deriving DecidableEq, Repr

/-- The fields of `metav1.ListMeta` that the package reads. -/
structure ListMeta where
  Continue : Option String
  ResourceVersion : Option String
  deriving DecidableEq, Repr

/-- A list message (`corev1.NodeList`, `corev1.PodList`, ...): its metadata and
its items. -/
structure ResourceList (α : Type) where
  Metadata : Option ListMeta
  Items : List α
  deriving DecidableEq, Repr

/-- The answers of `kr.client.List(ctx, "", &list)` for the four list types:
the filled list, or the error. `Sync` calls each at most once. -/
structure ListClient (ε : Type) where
  Nodes : Except ε (ResourceList Node)
  Pods : Except ε (ResourceList Pod)
  Services : Except ε (ResourceList Service)
  EndpointsL : Except ε (ResourceList Endpoints)

/-- What `Sync` does, in order: a `List` call for a kind, or a call of a kind's
handler with an event tag and an item. -/
inductive SyncAction where
  | list (k : Kind)
  | handle (k : Kind) (ev : String) (r : Resource)
  deriving DecidableEq, Repr

/-- State of a run of `Sync`: the value it returns (`err`, where `none` is Go's
`nil`; it is set only by a `return`), the registry, and the actions so far. -/
structure SyncResult (ε : Type) where
  err : Option ε
  kr : K8SRegistry
  trace : List SyncAction

/-- One `for _, item := range list.Items { handler("sync", item) }` loop. -/
def applyItems {ε : Type} (h : Handler) (k : Kind) (items : List Resource)
    (s : SyncResult ε) : Run (SyncResult ε) :=
  items.foldl
    (fun r item => r.bind fun s =>
      let s' := { s with trace := s.trace ++ [SyncAction.handle k "sync" item] }
      match h "sync" item s.kr with
      | .ok kr' => .ok { s' with kr := kr' }
      | .panic kr' => .panic { s' with kr := kr' })
    (.ok s)

/-- The method `Sync`. -/
def Sync {ε : Type} (c : ListClient ε) (kr : K8SRegistry) : Run (SyncResult ε) :=
  let s0 : SyncResult ε := { err := none, kr := kr, trace := [.list .Node] }
  match c.Nodes with
  | .error e => .ok { s0 with err := some e }
  | .ok nodes =>
    (applyItems onNode .Node (nodes.Items.map Resource.node) s0).bind fun s1 =>
    let s1 := { s1 with trace := s1.trace ++ [.list .Pod] }
    match c.Pods with
    | .error e => .ok { s1 with err := some e }
    | .ok pods =>
      (applyItems onPod .Pod (pods.Items.map Resource.pod) s1).bind fun s2 =>
      let s2 := { s2 with trace := s2.trace ++ [.list .Service] }
      match c.Services with
      | .error e => .ok { s2 with err := some e }
      | .ok svcl =>
        (applyItems onService .Service (svcl.Items.map Resource.service) s2).bind fun s3 =>
        let s3 := { s3 with trace := s3.trace ++ [.list .Endpoints] }
        match c.EndpointsL with
        | .error e => .ok { s3 with err := some e }
        | .ok epl =>
          applyItems onEP .Endpoints (epl.Items.map Resource.endpoints) s3

/-! ## The watch loop -/

/-- The answers of the client to one watch loop: whether the `i`-th call of
`Watch` returns a watcher (`true`) or an error, and what the `i`-th call of
`Next` returns, an event type with the decoded resource, or `none` for an
error (a closed stream and the server's timeout are errors of `Next`). -/
structure WatchClient where
  Watch : Nat → Bool
  Next : Nat → Option (String × Resource)

/-- What a watch loop does, in order: a `Watch` request with its two query
parameters, the two error log lines, a `time.Sleep` of so many seconds, and an
event returned by `Next`. -/
inductive Action where
  | watchReq (resourceVersion timeoutSeconds : String)
  | watchErr
  | nextErr
  | sleep (seconds : Nat)
  | event (evtype : String) (res : Resource)
  deriving DecidableEq, Repr

/-- The local variables of `watch` (`wn` is `true` when `wn != nil`), the
registry, the number of client calls made, and the actions so far. -/
structure WatchState where
  wn : Bool
  resourceVersion : String
  kr : K8SRegistry
  watchCalls : Nat
  nextCalls : Nat
  trace : List Action

/-- The state in which `watch` enters its `for` loop. -/
def watchInit (kr : K8SRegistry) : WatchState :=
  { wn := false, resourceVersion := "0", kr := kr,
    watchCalls := 0, nextCalls := 0, trace := [] }

/-- The first block of the body of the `for` loop of `watch`, `if wn == nil
{ ... }`: with no watcher at hand it issues a `Watch` request carrying the
cursor and a timeout of 300 seconds; on an error it logs, sleeps 5 seconds and
the pass ends at `continue` (second component `false`). -/
def watchConnect (c : WatchClient) (st : WatchState) : WatchState × Bool :=
  if st.wn then (st, true)
  else
    let st1 := { st with
      watchCalls := st.watchCalls + 1
      trace := st.trace ++ [Action.watchReq st.resourceVersion "300"] }
    if c.Watch st.watchCalls then ({ st1 with wn := true }, true)
    else ({ st1 with trace := st1.trace ++ [Action.watchErr, Action.sleep 5] }, false)

/-- The rest of the body of the `for` loop of `watch`, from `wn.Next(k8sRes)`
on: on an error it drops the watcher, logs, sleeps 5 seconds and the pass ends
at `continue`; on an event it stores `*k8sRes.GetMetadata().ResourceVersion`
in the cursor and calls the handler `f` if there is one. -/
def watchReceive (c : WatchClient) (f : Option Handler) (st : WatchState) :
    Run WatchState :=
  let st2 := { st with nextCalls := st.nextCalls + 1 }
  match c.Next st.nextCalls with
  | none =>
    .ok { st2 with wn := false, trace := st2.trace ++ [Action.nextErr, Action.sleep 5] }
  | some (evtype, res) =>
    let st3 := { st2 with trace := st2.trace ++ [Action.event evtype res] }
    match res.GetMetadata with
    | none => .panic st3
    | some md =>
      match md.ResourceVersion with
      | none => .panic st3
      | some rv =>
        let st4 := { st3 with resourceVersion := rv }
        match f with
        | none => .ok st4
        | some h =>
          match h evtype res st4.kr with
          | .ok kr' => .ok { st4 with kr := kr' }
          | .panic kr' => .panic { st4 with kr := kr' }

/-- One pass through the body of the `for` loop of `watch`. `ok` is reached at a
`continue` or at the end of the body, from where the loop goes round again; the
body has no `return` or `break`. -/
def watchIter (c : WatchClient) (f : Option Handler) (st : WatchState) :
    Run WatchState :=
  match watchConnect c st with
  | (st1, false) => .ok st1
  | (st1, true) => watchReceive c f st1

/-- The `for` loop of `watch`, run for a number of passes. -/
def watchLoop (c : WatchClient) (f : Option Handler) : Nat → WatchState → Run WatchState
  | 0, st => .ok st
  | n + 1, st => (watchIter c f st).bind (watchLoop c f n)

/-- The method `watch`, observed after a number of passes of its loop. -/
def watch (c : WatchClient) (kr : K8SRegistry) (f : Option Handler) (passes : Nat) :
    Run WatchState :=
  watchLoop c f passes (watchInit kr)

/-- The handler that `Start` gives to the loop of a kind. -/
def Kind.handler : Kind → Handler
  | .Node => onNode
  | .Pod => onPod
  | .Service => onService
  | .Endpoints => onEP

/-- A goroutine launched by `Start`: the kind of the resource it decodes into,
its name in the log, and its handler. -/
structure Watcher where
  kind : Kind
  n : String
  f : Option Handler

/-- The method `Start`: the four goroutines it launches (it then returns
`nil`). Each runs `watch`, which takes no cursor from its caller. -/
def Start : List Watcher :=
  [ ⟨.Node, "Node", some onNode⟩,
    ⟨.Pod, "Pod", some onPod⟩,
    ⟨.Service, "Service", some onService⟩,
    ⟨.Endpoints, "Endpoints", some onEP⟩ ]

/-! ## Paged listing: `listPaged` -/

/-- Query parameters of a request, as built with `k8s.QueryParam`. -/
abbrev Params := List (String × String)

/-- The answers of `kr.client.List(ctx, "", node, params...)` to `listPaged`:
for the `i`-th call and its query parameters, the returned error (`none` is
`nil`) and the contents of the fresh list `nodef()` after the call. -/
structure PagedClient (ε α : Type) where
  List : Nat → Params → Option ε × ResourceList α

/-- The lines `listPaged` logs. -/
inductive PagedLog (ε : Type) where
  | error (e : ε)
  | done (n : String) (total : Nat)
  deriving DecidableEq, Repr

/-- The local variable `total` of `listPaged`, the query parameters of the
`List` calls made so far, the lists they filled, and the log. -/
structure PagedState (ε α : Type) where
  total : Nat
  requests : List Params
  pages : List (ResourceList α)
  log : List (PagedLog ε)
  deriving DecidableEq, Repr

/-- The call `node.GetMetadata().Size()`. `Size` is the generated method of
`metav1.ListMeta`, which is not part of this repository: `size` is its value on
a message, `nilSize` its value on a nil receiver, `none` if it panics there. -/
def metaSize (size : ListMeta → Nat) (nilSize : Option Nat) : Option ListMeta → Option Nat
  | some m => some (size m)
  | none => nilSize

/-- The expression `*node.GetMetadata().Continue`, `none` when it panics. -/
def continueOf {α : Type} (node : ResourceList α) : Option String :=
  match node.Metadata with
  | none => none
  | some m => m.Continue

/-- The `for` loop of `listPaged`, for at most `fuel` passes; `none` when the
passes are used up before the loop returns. -/
def listPagedLoop {ε α : Type} (c : PagedClient ε α) (size : ListMeta → Nat)
    (nilSize : Option Nat) (n : String) :
    Nat → String → PagedState ε α → Option (Run (PagedState ε α))
  | 0, _, _ => none
  | fuel + 1, cnt, st =>
    let params : Params := [("limit", "10"), ("continue", cnt)]
    let (err, node) := c.List st.requests.length params
    let st1 := { st with requests := st.requests ++ [params], pages := st.pages ++ [node] }
    match err with
    | some e => some (.ok { st1 with log := st1.log ++ [PagedLog.error e] })
    | none =>
      match metaSize size nilSize node.Metadata with
      | none => some (.panic st1)
      | some sz =>
        let st2 := { st1 with total := st1.total + sz }
        match continueOf node with
        | none => some (.panic st2)
        | some cnt' =>
          if cnt' = "" then
            some (.ok { st2 with log := st2.log ++ [PagedLog.done n st2.total] })
          else listPagedLoop c size nilSize n fuel cnt' st2

/-- The method `listPaged` (its argument `f` is never called). The first
`List` asks for 50 items; `total` is increased before the error is looked at;
the token of the first answer is not compared with `""` before the loop
issues the next request. -/
def listPaged {ε α : Type} (c : PagedClient ε α) (size : ListMeta → Nat)
    (nilSize : Option Nat) (n : String) (fuel : Nat) : Option (Run (PagedState ε α)) :=
  let params : Params := [("limit", "50")]
  let (err, node) := c.List 0 params
  let st0 : PagedState ε α := { total := 0, requests := [params], pages := [node], log := [] }
  match metaSize size nilSize node.Metadata with
  | none => some (.panic st0)
  | some sz =>
    let st1 := { st0 with total := sz }
    match err with
    | some e => some (.ok { st1 with log := [PagedLog.error e] })
    | none =>
      match continueOf node with
      | none => some (.panic st1)
      | some cnt => listPagedLoop c size nilSize n fuel cnt st1

/-! ## A client that honours `limit` and `continue` -/

/-- Decimal value of a query parameter such as `"50"`. -/
def parseNat (s : String) : Nat :=
  s.data.foldl (fun n ch => 10 * n + (ch.toNat - 48)) 0

/-- The continuation token that stands for "resume at offset `off`"; the token
of offset 0 is the empty string. -/
def encodeToken (off : Nat) : String := String.mk (List.replicate off 't')

/-- The offset a continuation token stands for. -/
def decodeToken (tok : String) : Nat := tok.data.length

/-- A server holding the collection `items` at resource version `rv`, which
honours `limit` and `continue`: every answer holds at most `limit` items,
starting where the token says (at the start when there is no token or it is
empty), and its continuation token is empty exactly when the answer reaches
the end of the collection. -/
def pagedServer {ε α : Type} (items : List α) (rv : String) : PagedClient ε α where
  List := fun _ params =>
    let limit : Nat := match params.lookup "limit" with
      | some l => parseNat l
      | none => 0
    let off : Nat := match params.lookup "continue" with
      | some tok => decodeToken tok
      | none => 0
    let rest := items.drop off
    let last : Bool := limit == 0 || decide (rest.length ≤ limit)
    let page := if last then rest else rest.take limit
    let tok := if last then "" else encodeToken (off + limit)
    (none, { Metadata := some { Continue := some tok, ResourceVersion := some rv },
             Items := page })

/-- The items of all the answers received, in the order received. -/
def PagedState.received {ε α : Type} (st : PagedState ε α) : List α :=
  (st.pages.map fun p => p.Items).flatten

/-- The page size a request asks for: the decimal value of its `limit`. -/
def limitOf (params : Params) : Nat :=
  match params.lookup "limit" with
  | some l => parseNat l
  | none => 0

/-- The offset at which a request asks to resume, `offsetOf` being the
server's reading of its own continuation tokens (`none` for a token it did not
issue): the start of the collection when the request has no `continue`. -/
def startOf (offsetOf : String → Option Nat) (params : Params) : Option Nat :=
  match params.lookup "continue" with
  | some tok => offsetOf tok
  | none => some 0

/-- The client honours `limit` and `continue` over the collection `items`:
every request with a positive `limit` that resumes at an offset `off` (the
start, or where a token of the server points) succeeds and returns the next
`pageSize` items of the collection from `off` on, at least one and at most
`limit` of them, with a continuation token that is empty exactly when the
answer reaches the end of the collection and that otherwise points behind the
last item returned. `pageSize` may depend on the call and on the request. -/
def Honours {ε α : Type} (c : PagedClient ε α) (items : List α)
    (offsetOf : String → Option Nat) (pageSize : Nat → Params → Nat) : Prop :=
  ∀ (i : Nat) (params : Params) (off : Nat),
    0 < limitOf params → startOf offsetOf params = some off →
    0 < pageSize i params ∧ pageSize i params ≤ limitOf params ∧
    ∃ (m : ListMeta) (tok : String),
      c.List i params
        = (none, { Metadata := some m,
                   Items := (items.drop off).take (pageSize i params) }) ∧
      m.Continue = some tok ∧
      (tok = "" ↔ items.length ≤ off + pageSize i params) ∧
      (tok ≠ "" → offsetOf tok = some (off + pageSize i params))

/-- A server like `pagedServer` whose answers never hold more than `cap` items:
it returns the next `min limit cap` items and an empty token exactly when that
reaches the end of the collection. -/
def cappedServer {ε α : Type} (cap : Nat) (items : List α) (rv : String) :
    PagedClient ε α where
  List := fun _ params =>
    let size : Nat := min (limitOf params) cap
    let off : Nat := match params.lookup "continue" with
      | some tok => decodeToken tok
      | none => 0
    let rest := items.drop off
    let tok := if rest.length ≤ size then "" else encodeToken (off + size)
    (none, { Metadata := some { Continue := some tok, ResourceVersion := some rv },
             Items := rest.take size })

/-- The query parameters of the requests that the loop of `listPaged` issues
for a continuation token. -/
def followUp (tok : String) : Params := [("limit", "10"), ("continue", tok)]

/-- The sum of `Size()` over the metadata of the answers, which is what
`total` adds up. -/
def sizeSum {α : Type} (size : ListMeta → Nat) (pages : List (ResourceList α)) : Nat :=
  ((pages.filterMap fun p => p.Metadata).map size).sum

/-! ## Vocabulary of the properties -/

/-- The metadata carries a name and a namespace, the two fields the log lines
of the handlers dereference. -/
def ObjectMeta.named (md : ObjectMeta) : Bool :=
  md.Name.isSome && md.Namespace.isSome

/-- The pod carries a pod IP and a host IP. -/
def Pod.hasIPs (p : Pod) : Bool :=
  match p.Status with
  | none => false
  | some status => status.PodIP.isSome && status.HostIP.isSome

/-- The pod carries metadata with a name and a namespace. -/
def Pod.named (p : Pod) : Bool :=
  match p.Metadata with
  | none => false
  | some md => md.named

/-- The pod IP assigned to the pod, if any. -/
def Pod.podIP (p : Pod) : Option String :=
  match p.Status with
  | none => none
  | some status => status.PodIP

/-- The (host IP, labels, annotations) of a pod event, when the pod has them. -/
def Pod.record (p : Pod) : Option podInfo :=
  match p.Status, p.Metadata with
  | some status, some md =>
    match status.HostIP with
    | some host => some ⟨host, md.Labels, md.Annotations⟩
    | none => none
  | _, _ => none

/-- A sequence of pod events (event tag, pod) applied in order through `onPod`. -/
def applyPods (evs : List (String × Pod)) (kr : K8SRegistry) : Run K8SRegistry :=
  evs.foldl (fun r e => r.bind (onPod e.1 (.pod e.2))) (.ok kr)

/-- The pod of the last event of the sequence whose pod IP is `a`. -/
def lastWithIP (a : String) (evs : List (String × Pod)) : Option Pod :=
  evs.foldl (fun acc e => if e.2.podIP = some a then some e.2 else acc) none

/-- The resource carries every field that its handler and the watch loop
dereference: metadata with a name and a namespace and, for a pod, a status
that has a host IP whenever it has a pod IP. -/
def Resource.populated : Resource → Bool
  | .node n =>
    match n.Metadata with
    | none => false
    | some md => md.named
  | .pod p =>
    match p.Status with
    | none => false
    | some status => status.PodIP.isNone || (status.HostIP.isSome && p.named)
  | .service s =>
    match s.Metadata with
    | none => false
    | some md => md.named
  | .endpoints e =>
    match e.Metadata with
    | none => false
    | some md => md.named

/-- The resource version carried by a resource, if any. -/
def Resource.resourceVersion (r : Resource) : Option String :=
  match r.GetMetadata with
  | none => none
  | some md => md.ResourceVersion

/-- An event dispatched to the handler of a kind. -/
structure Dispatch where
  kind : Kind
  ev : String
  resource : Resource

/-- A sequence of events dispatched in order to the handlers. -/
def dispatchAll (ds : List Dispatch) (kr : K8SRegistry) : Run K8SRegistry :=
  ds.foldl (fun r d => r.bind (d.kind.handler d.ev d.resource)) (.ok kr)

/-- The resource of the most recent event in a trace of the watch loop. -/
def lastEvent (tr : List Action) : Option Resource :=
  tr.foldl (fun acc a => match a with
    | .event _ res => some res
    | _ => acc) none

/-- The cursor the watch loop should hold after a trace: the resource version
of the most recent event received, or "0" if there is none. -/
def cursorAfter (tr : List Action) (rv : String) : Prop :=
  match lastEvent tr with
  | none => rv = "0"
  | some res => res.resourceVersion = some rv

/-- The version order of the store: resource versions are revision numbers
written in decimal. -/
def rvLe (a b : String) : Prop := parseNat a ≤ parseNat b

instance (a b : String) : Decidable (rvLe a b) := by
  unfold rvLe; infer_instance

/-- The resource version of what the `i`-th call of `Next` returns. -/
def WatchClient.versionAt (c : WatchClient) (i : Nat) : Option String :=
  match c.Next i with
  | none => none
  | some (_, res) => res.resourceVersion

/-- A failure logged by the watch loop. -/
def Action.isFailure : Action → Bool
  | .watchErr => true
  | .nextErr => true
  | _ => false

/-- Two consecutive actions of a watch loop respect the back-off cycle: a
failure is followed by a sleep of 5 seconds, and a sleep by a `Watch` request
with a timeout of 300 seconds. -/
def backsOff (a b : Action) : Prop :=
  (a.isFailure = true → b = .sleep 5) ∧
  (a = .sleep 5 → ∃ rv, b = .watchReq rv "300")

/-- The listing of a kind as `Sync` sees it: the items as resources, or the
error. -/
def ListClient.items {ε : Type} (c : ListClient ε) : Kind → Except ε (List Resource)
  | .Node => c.Nodes.map fun l => l.Items.map Resource.node
  | .Pod => c.Pods.map fun l => l.Items.map Resource.pod
  | .Service => c.Services.map fun l => l.Items.map Resource.service
  | .Endpoints => c.EndpointsL.map fun l => l.Items.map Resource.endpoints

/-- The resource version in the metadata of the listing of a kind. -/
def ListClient.listedVersion {ε : Type} (c : ListClient ε) : Kind → Option String
  | .Node => match c.Nodes with
    | .ok l => l.Metadata.bind fun m => m.ResourceVersion
    | .error _ => none
  | .Pod => match c.Pods with
    | .ok l => l.Metadata.bind fun m => m.ResourceVersion
    | .error _ => none
  | .Service => match c.Services with
    | .ok l => l.Metadata.bind fun m => m.ResourceVersion
    | .error _ => none
  | .Endpoints => match c.EndpointsL with
    | .ok l => l.Metadata.bind fun m => m.ResourceVersion
    | .error _ => none

/-- Every item of every successful listing is populated. -/
def ListClient.populated {ε : Type} (c : ListClient ε) : Prop :=
  ∀ k items, c.items k = .ok items → ∀ r ∈ items, r.populated = true

/-- The order in which the specification has `Sync` go through the kinds. -/
def Kind.order : List Kind := [.Node, .Pod, .Service, .Endpoints]

/-- Position of a kind in `Kind.order`. -/
def Kind.index : Kind → Nat
  | .Node => 0
  | .Pod => 1
  | .Service => 2
  | .Endpoints => 3

/-- The kind an action of `Sync` is about. -/
def SyncAction.kind : SyncAction → Kind
  | .list k => k
  | .handle k _ _ => k

/-- What the specification has `Sync` do over a list of kinds: list each kind
in turn, stop at the first error and return it, otherwise hand every item to
the handler of the kind with the tag "sync". -/
def syncPlan {ε : Type} (c : ListClient ε) : List Kind → List SyncAction × Option ε
  | [] => ([], none)
  | k :: ks =>
    match c.items k with
    | .error e => ([.list k], some e)
    | .ok items =>
      (SyncAction.list k :: items.map (SyncAction.handle k "sync") ++ (syncPlan c ks).1,
        (syncPlan c ks).2)

/-- The handler calls of a trace of `Sync`, as dispatches. -/
def handled (tr : List SyncAction) : List Dispatch :=
  tr.filterMap fun a => match a with
    | .handle k ev r => some ⟨k, ev, r⟩
    | .list _ => none

/-! ## Invariants of the watch loop -/

/-- Every `Watch` request of the trace has a timeout of 300 seconds and the
cursor that the events before it determine. -/
def RequestsGood (tr : List Action) : Prop :=
  ∀ pre post rv t, tr = pre ++ Action.watchReq rv t :: post →
    t = "300" ∧ cursorAfter pre rv

/-- The invariant of the loop: the requests so far are good and the variable
`resourceVersion` is the cursor that the trace determines. -/
def CursorInv (st : WatchState) : Prop :=
  RequestsGood st.trace ∧ cursorAfter st.trace st.resourceVersion

/-- The cursor is "0" or the resource version of an event already received. -/
def CursorSeen (c : WatchClient) (st : WatchState) : Prop :=
  st.resourceVersion = "0" ∨ ∃ i, i < st.nextCalls ∧ c.versionAt i = some st.resourceVersion

/-- The invariant of the back-off cycle: consecutive actions respect it, the
trace does not end with a failure, and it ends with a sleep only when the
watcher has been dropped. -/
def BackoffInv (st : WatchState) : Prop :=
  List.Chain' backsOff st.trace ∧
  ∀ a ∈ st.trace.getLast?, a.isFailure = false ∧ (a = Action.sleep 5 → st.wn = false)

/-! ## Concrete inputs -/

/-- Metadata with every field set. -/
def fullMeta (name rv : String) (labels : StrMap) : ObjectMeta :=
  { Name := some name, Namespace := some "default", ResourceVersion := some rv,
    Labels := labels, Annotations := [] }

/-- A running pod with both IPs and full metadata. -/
def runningPod (name ip host rv : String) (labels : StrMap) : Pod :=
  { Metadata := some (fullMeta name rv labels),
    Status := some { Phase := some "Running", HostIP := some host, PodIP := some ip } }

/-- A pod with full metadata and no status message. -/
def podWithoutStatus : Pod :=
  { Metadata := some (fullMeta "web-0" "7" [("app", "web")]), Status := none }

/-- A pending pod: a status without IPs, and no metadata at all. -/
def pendingPod : Pod :=
  { Metadata := none, Status := some { Phase := some "Pending", HostIP := none, PodIP := none } }

/-- A pod with both IPs whose metadata lacks the namespace. -/
def podWithoutNamespace : Pod :=
  { Metadata := some { Name := some "web-0", Namespace := none, ResourceVersion := some "7",
                       Labels := [("version", "v1")], Annotations := [] },
    Status := some { Phase := some "Running", HostIP := some "192.168.0.5",
                     PodIP := some "10.0.0.1" } }

/-- Two events for the pod IP 10.0.0.1; the pod of the first lacks the
namespace. -/
def lastWriteEvents : List (String × Pod) :=
  [("ADDED", podWithoutNamespace),
   ("MODIFIED", runningPod "web-0" "10.0.0.1" "192.168.0.5" "8" [("version", "v2")])]

/-- A registry that already knows node `node-a` and pod IP `10.0.0.2`. -/
def seededRegistry : K8SRegistry :=
  { podLabelsByIp := GoMap.empty.set "10.0.0.2" ⟨"192.168.0.6", [("app", "db")], []⟩,
    nodes := GoMap.empty.set "node-a" [("failure-domain.beta.kubernetes.io/zone", "z1")] }

/-- A cluster whose four listings succeed, each at resource version "42": two
nodes, one running pod, no services and no endpoints. -/
def bootClient : ListClient String where
  Nodes := .ok { Metadata := some { Continue := some "", ResourceVersion := some "42" },
                 Items := [⟨some (fullMeta "node-a" "11" [("zone", "z1")])⟩,
                           ⟨some (fullMeta "node-b" "12" [("zone", "z2")])⟩] }
  Pods := .ok { Metadata := some { Continue := some "", ResourceVersion := some "42" },
                Items := [runningPod "web-0" "10.0.0.1" "192.168.0.5" "30" []] }
  Services := .ok { Metadata := some { Continue := some "", ResourceVersion := some "42" },
                    Items := [] }
  EndpointsL := .ok { Metadata := some { Continue := some "", ResourceVersion := some "42" },
                      Items := [] }

/-- A watch client whose `Watch` always succeeds and whose `Next` always times
out. -/
def quietStream : WatchClient where
  Watch := fun _ => true
  Next := fun _ => none

/-- A stream of pod events whose resource versions are "5" and then "3". -/
def regressingStream : WatchClient where
  Watch := fun _ => true
  Next := fun i =>
    if i = 0 then some ("MODIFIED", .pod (runningPod "web-0" "10.0.0.1" "192.168.0.5" "5" []))
    else if i = 1 then
      some ("MODIFIED", .pod (runningPod "web-1" "10.0.0.2" "192.168.0.5" "3" []))
    else none

/-- A stream of pod events whose resource versions are "5" and then "8",
followed by time-outs. -/
def orderedStream : WatchClient where
  Watch := fun _ => true
  Next := fun i =>
    if i = 0 then some ("MODIFIED", .pod (runningPod "web-0" "10.0.0.1" "192.168.0.5" "5" []))
    else if i = 1 then
      some ("MODIFIED", .pod (runningPod "web-1" "10.0.0.2" "192.168.0.5" "8" []))
    else none

/-- A stream for the Pod loop whose first `Watch` fails and later ones succeed,
and whose `Next` returns an event, then times out, then returns an event, and
times out ever after. -/
def flakyStream : WatchClient where
  Watch := fun i => decide (i ≠ 0)
  Next := fun i =>
    if i = 0 then some ("ADDED", .pod (runningPod "web-0" "10.0.0.1" "192.168.0.5" "5" []))
    else if i = 2 then
      some ("MODIFIED", .pod (runningPod "web-0" "10.0.0.1" "192.168.0.5" "8" [("v", "2")]))
    else none

/-- The node that `cmd/loader/loader.go` builds: metadata with a name and
nothing else. -/
def loaderNode : Node :=
  { Metadata := some { Name := some "node1", Namespace := none, ResourceVersion := none,
                       Labels := [], Annotations := [] } }

/-- A stream for the Node loop whose first event carries `loaderNode`. -/
def haltingStream : WatchClient where
  Watch := fun _ => true
  Next := fun i => if i = 0 then some ("ADDED", .node loaderNode) else none

/-- A cluster whose four listings succeed and whose only item, an endpoints
object, lacks the namespace. -/
def lastItemClient : ListClient String where
  Nodes := .ok { Metadata := none, Items := [] }
  Pods := .ok { Metadata := none, Items := [] }
  Services := .ok { Metadata := none, Items := [] }
  EndpointsL := .ok { Metadata := none,
                      Items := [⟨some { Name := some "kubernetes", Namespace := none,
                                        ResourceVersion := some "3", Labels := [],
                                        Annotations := [] }⟩] }

/-- A collection of five items. -/
def fiveItems : List Nat := [1, 2, 3, 4, 5]

/-! # Theorems -/

/-! ## Lemmas on maps and runs -/

theorem GoMap.set_set {V : Type} (m : GoMap V) (k : String) (v : V) :
    (m.set k v).set k v = m.set k v := by
  funext k'
  simp only [GoMap.set]
  split <;> rfl

theorem GoMap.set_isSome {V : Type} (m : GoMap V) (k k' : String) (v : V)
    (h : (m k').isSome = true) : ((m.set k v) k').isSome = true := by
  simp only [GoMap.set]
  split
  · rfl
  · exact h

theorem Run.bind_ok {σ : Type} (s : σ) (f : σ → Run σ) : (Run.ok s).bind f = f s := rfl

theorem Run.bind_panic {σ : Type} (s : σ) (f : σ → Run σ) :
    (Run.panic s).bind f = .panic s := rfl

theorem foldl_bind_panic {σ β : Type} (g : β → σ → Run σ) (l : List β) (s : σ) :
    l.foldl (fun (r : Run σ) b => r.bind (g b)) (Run.panic s) = Run.panic s := by
  induction l with
  | nil => rfl
  | cons b l ih => simpa [List.foldl, Run.bind] using ih

/-! ## The handlers -/

/-- C2 (amended): for every state, event tag and pod whose status is present
and carries no pod IP, whatever the metadata and the other status fields hold,
`onPod` returns normally and leaves the registry as it was; for a pod with no
status at all the registry is also left as it was. -/
theorem onPod_noIP_noop (ev : String) (md : Option ObjectMeta) (status : PodStatus)
    (kr : K8SRegistry) (h : status.PodIP = none) :
    onPod ev (.pod ⟨md, some status⟩) kr = .ok kr ∧
    (onPod ev (.pod ⟨md, none⟩) kr).state = kr := by
  constructor
  · simp [onPod, h]
  · simp [onPod, Run.state]

/-- Witness of C2 (amended): a pending pod without metadata. -/
theorem onPod_noIP_noop_witness :
    onPod "ADDED" (.pod ⟨none, some ⟨some "Pending", none, none⟩⟩) NewK8SRegistry
      = .ok NewK8SRegistry ∧
    (onPod "ADDED" (.pod ⟨none, none⟩) NewK8SRegistry).state = NewK8SRegistry :=
  onPod_noIP_noop "ADDED" none ⟨some "Pending", none, none⟩ NewK8SRegistry rfl

/-- C2 (as stated) fails: a pod with full metadata and no status has no pod IP,
and `onPod` panics on it at `pod.Status.PodIP`; so it is not true that `onPod`
returns normally on every pod without a pod IP. -/
theorem onPod_noStatus_panics :
    podWithoutStatus.podIP = none ∧
    (onPod "ADDED" (.pod podWithoutStatus) NewK8SRegistry).isOk = false ∧
    ¬ (∀ (ev : String) (pod : Pod) (kr : K8SRegistry), pod.podIP = none →
        onPod ev (.pod pod) kr = .ok kr) := by
  refine ⟨rfl, rfl, fun h => ?_⟩
  have h1 := h "ADDED" podWithoutStatus NewK8SRegistry rfl
  have h2 : (onPod "ADDED" (.pod podWithoutStatus) NewK8SRegistry).isOk = false := rfl
  rw [h1] at h2
  cases h2

/-- C9: for every registry, event tag and resource, running `onNode` twice in
a row on the same event gives the same outcome and the same registry as
running it once, and likewise for `onPod`; the registry reached by a second
application from the registry of the first is that of the first. -/
theorem handlers_idempotent (ev : String) (r : Resource) (kr : K8SRegistry) :
    (onNode ev r kr).bind (onNode ev r) = onNode ev r kr ∧
    (onPod ev r kr).bind (onPod ev r) = onPod ev r kr ∧
    (onNode ev r (onNode ev r kr).state).state = (onNode ev r kr).state ∧
    (onPod ev r (onPod ev r kr).state).state = (onPod ev r kr).state := by
  refine ⟨?_, ?_, ?_, ?_⟩
  · cases r with
    | node n =>
      rcases n with ⟨_ | ⟨_ | name, _ | ns, rv, labels, ann⟩⟩ <;>
        simp [onNode, Run.bind, GoMap.set_set]
    | pod p => rfl
    | service s => rfl
    | endpoints e => rfl
  · cases r with
    | pod p =>
      rcases p with ⟨_ | ⟨_ | name, _ | ns, rv, labels, ann⟩, _ | ⟨phase, _ | host, _ | ip⟩⟩ <;>
        simp [onPod, Run.bind, GoMap.set_set]
    | node n => rfl
    | service s => rfl
    | endpoints e => rfl
  · cases r with
    | node n =>
      rcases n with ⟨_ | ⟨_ | name, _ | ns, rv, labels, ann⟩⟩ <;>
        simp [onNode, Run.state, GoMap.set_set]
    | pod p => rfl
    | service s => rfl
    | endpoints e => rfl
  · cases r with
    | pod p =>
      rcases p with ⟨_ | ⟨_ | name, _ | ns, rv, labels, ann⟩, _ | ⟨phase, _ | host, _ | ip⟩⟩ <;>
        simp [onPod, Run.state, GoMap.set_set]
    | node n => rfl
    | service s => rfl
    | endpoints e => rfl

theorem dispatchAll_cons (d : Dispatch) (ds : List Dispatch) (kr : K8SRegistry) :
    dispatchAll (d :: ds) kr
      = ds.foldl (fun (r : Run K8SRegistry) d => r.bind (d.kind.handler d.ev d.resource))
          (d.kind.handler d.ev d.resource kr) := rfl

theorem dispatchAll_cons_ok (d : Dispatch) (ds : List Dispatch) (kr kr' : K8SRegistry)
    (h : d.kind.handler d.ev d.resource kr = .ok kr') :
    dispatchAll (d :: ds) kr = dispatchAll ds kr' := by
  rw [dispatchAll_cons, h]; rfl

theorem dispatchAll_cons_panic (d : Dispatch) (ds : List Dispatch) (kr kr' : K8SRegistry)
    (h : d.kind.handler d.ev d.resource kr = .panic kr') :
    dispatchAll (d :: ds) kr = .panic kr' := by
  rw [dispatchAll_cons, h]
  exact foldl_bind_panic (fun d => d.kind.handler d.ev d.resource) ds kr'

theorem onNode_keeps (ev : String) (r : Resource) (kr : K8SRegistry) :
    (∀ k, (kr.nodes k).isSome = true → (((onNode ev r kr).state).nodes k).isSome = true) ∧
    ((onNode ev r kr).state).podLabelsByIp = kr.podLabelsByIp := by
  cases r with
  | node n =>
    rcases n with ⟨_ | ⟨_ | name, _ | ns, rv, labels, ann⟩⟩ <;>
      simp only [onNode, Run.state, and_true, imp_self, implies_true] <;>
      exact fun k hk => GoMap.set_isSome _ _ _ _ hk
  | pod p => exact ⟨fun _ h => h, rfl⟩
  | service s => exact ⟨fun _ h => h, rfl⟩
  | endpoints e => exact ⟨fun _ h => h, rfl⟩

theorem onPod_keeps (ev : String) (r : Resource) (kr : K8SRegistry) :
    (∀ k, (kr.podLabelsByIp k).isSome = true →
      (((onPod ev r kr).state).podLabelsByIp k).isSome = true) ∧
    ((onPod ev r kr).state).nodes = kr.nodes := by
  cases r with
  | pod p =>
    rcases p with ⟨_ | ⟨_ | name, _ | ns, rv, labels, ann⟩, _ | ⟨phase, _ | host, _ | ip⟩⟩ <;>
      simp only [onPod, Run.state, and_true, imp_self, implies_true] <;>
      exact fun k hk => GoMap.set_isSome _ _ _ _ hk
  | node n => exact ⟨fun _ h => h, rfl⟩
  | service s => exact ⟨fun _ h => h, rfl⟩
  | endpoints e => exact ⟨fun _ h => h, rfl⟩

theorem onService_state (ev : String) (r : Resource) (kr : K8SRegistry) :
    (onService ev r kr).state = kr := by
  cases r with
  | service s =>
    rcases s with ⟨_ | ⟨_ | name, _ | ns, rv, labels, ann⟩⟩ <;> rfl
  | node n => rfl
  | pod p => rfl
  | endpoints e => rfl

theorem onEP_state (ev : String) (r : Resource) (kr : K8SRegistry) :
    (onEP ev r kr).state = kr := by
  cases r with
  | endpoints s =>
    rcases s with ⟨_ | ⟨_ | name, _ | ns, rv, labels, ann⟩⟩ <;> rfl
  | node n => rfl
  | pod p => rfl
  | service e => rfl

theorem handler_keeps (k : Kind) (ev : String) (r : Resource) (kr : K8SRegistry) :
    (∀ name, (kr.nodes name).isSome = true →
      (((k.handler ev r kr).state).nodes name).isSome = true) ∧
    (∀ ip, (kr.podLabelsByIp ip).isSome = true →
      (((k.handler ev r kr).state).podLabelsByIp ip).isSome = true) := by
  cases k with
  | Node =>
    refine ⟨(onNode_keeps ev r kr).1, fun ip h => ?_⟩
    show (((onNode ev r kr).state).podLabelsByIp ip).isSome = true
    rw [(onNode_keeps ev r kr).2]; exact h
  | Pod =>
    refine ⟨fun name h => ?_, (onPod_keeps ev r kr).1⟩
    show (((onPod ev r kr).state).nodes name).isSome = true
    rw [(onPod_keeps ev r kr).2]; exact h
  | Service =>
    show (∀ name, _ → (((onService ev r kr).state).nodes name).isSome = true) ∧
      (∀ ip, _ → (((onService ev r kr).state).podLabelsByIp ip).isSome = true)
    rw [onService_state]; exact ⟨fun _ h => h, fun _ h => h⟩
  | Endpoints =>
    show (∀ name, _ → (((onEP ev r kr).state).nodes name).isSome = true) ∧
      (∀ ip, _ → (((onEP ev r kr).state).podLabelsByIp ip).isSome = true)
    rw [onEP_state]; exact ⟨fun _ h => h, fun _ h => h⟩

theorem dispatchAll_keeps (ds : List Dispatch) (kr : K8SRegistry) :
    (∀ name, (kr.nodes name).isSome = true →
      (((dispatchAll ds kr).state).nodes name).isSome = true) ∧
    (∀ ip, (kr.podLabelsByIp ip).isSome = true →
      (((dispatchAll ds kr).state).podLabelsByIp ip).isSome = true) := by
  induction ds generalizing kr with
  | nil => exact ⟨fun _ h => h, fun _ h => h⟩
  | cons d ds ih =>
    have hk := handler_keeps d.kind d.ev d.resource kr
    cases hd : d.kind.handler d.ev d.resource kr with
    | ok kr' =>
      rw [dispatchAll_cons_ok d ds kr kr' hd]
      rw [hd] at hk
      exact ⟨fun name h => (ih kr').1 name (hk.1 name h), fun ip h => (ih kr').2 ip (hk.2 ip h)⟩
    | panic kr' =>
      rw [dispatchAll_cons_panic d ds kr kr' hd]
      rw [hd] at hk
      exact hk

/-- C10: whatever events (of any kind and any type, deletions included) are
dispatched to the four handlers, every key of `nodes` and of `podLabelsByIp`
is still a key afterwards; the handlers ignore the event type, so that a
"DELETED" event stores the record of its node or pod like any other event;
`onService` and `onEP` leave the registry as it was, and so does `onNode` on a
resource that is not a node and `onPod` on one that is not a pod. -/
theorem handlers_never_remove (ds : List Dispatch) (kr : K8SRegistry) :
    (∀ name, (kr.nodes name).isSome = true →
      (((dispatchAll ds kr).state).nodes name).isSome = true) ∧
    (∀ ip, (kr.podLabelsByIp ip).isSome = true →
      (((dispatchAll ds kr).state).podLabelsByIp ip).isSome = true) ∧
    (∀ (k : Kind) (ev ev' : String) (r : Resource) (s : K8SRegistry),
      k.handler ev r s = k.handler ev' r s) ∧
    (∀ (md : ObjectMeta) (name : String) (s : K8SRegistry), md.Name = some name →
      ((onNode "DELETED" (.node ⟨some md⟩) s).state).nodes name = some md.Labels) ∧
    (∀ (p : Pod) (ip : String) (info : podInfo) (s : K8SRegistry),
      p.podIP = some ip → p.record = some info →
      ((onPod "DELETED" (.pod p) s).state).podLabelsByIp ip = some info) ∧
    (∀ (ev : String) (r : Resource) (s : K8SRegistry),
      (onService ev r s).state = s ∧ (onEP ev r s).state = s) ∧
    (∀ (ev : String) (r : Resource) (s : K8SRegistry),
      ((∀ n, r ≠ .node n) → onNode ev r s = .ok s) ∧
      ((∀ p, r ≠ .pod p) → onPod ev r s = .ok s)) := by
  refine ⟨(dispatchAll_keeps ds kr).1, (dispatchAll_keeps ds kr).2, ?_, ?_, ?_, ?_, ?_⟩
  · intro k ev ev' r s
    cases k <;> rfl
  · intro md name s h
    rcases md with ⟨_ | nm, _ | ns, rv, labels, ann⟩ <;>
      simp_all [onNode, Run.state, GoMap.set]
  · intro p ip info s hip hrec
    rcases p with ⟨_ | ⟨nm, _ | ns, rv, labels, ann⟩, _ | ⟨phase, _ | host, _ | pip⟩⟩ <;>
      simp_all [Pod.podIP, Pod.record]
    all_goals (rcases nm with _ | nm <;> simp [onPod, Run.state, GoMap.set, ← hrec, ← hip])
  · intro ev r s
    exact ⟨onService_state ev r s, onEP_state ev r s⟩
  · intro ev r s
    constructor
    · intro h
      cases r with
      | node n => exact absurd rfl (h n)
      | pod p => rfl
      | service s => rfl
      | endpoints e => rfl
    · intro h
      cases r with
      | pod p => exact absurd rfl (h p)
      | node n => rfl
      | service s => rfl
      | endpoints e => rfl

/-! ## Last write wins -/

theorem onPod_upsert (ev : String) (p : Pod) (h : p.hasIPs = true ∧ p.named = true) :
    ∃ ip info, p.podIP = some ip ∧ p.record = some info ∧
      ∀ kr, onPod ev (.pod p) kr
        = .ok { kr with podLabelsByIp := kr.podLabelsByIp.set ip info } := by
  rcases p with ⟨_ | ⟨_ | name, _ | ns, rv, labels, ann⟩, _ | ⟨phase, _ | host, _ | ip⟩⟩ <;>
    simp [Pod.hasIPs, Pod.named, ObjectMeta.named] at h
  exact ⟨ip, ⟨host, labels, ann⟩, rfl, rfl, fun kr => rfl⟩

theorem applyPods_snoc (evs : List (String × Pod)) (e : String × Pod) (kr : K8SRegistry) :
    applyPods (evs ++ [e]) kr = (applyPods evs kr).bind (onPod e.1 (.pod e.2)) := by
  simp [applyPods, List.foldl_append]

theorem lastWithIP_snoc (a : String) (evs : List (String × Pod)) (e : String × Pod) :
    lastWithIP a (evs ++ [e])
      = if e.2.podIP = some a then some e.2 else lastWithIP a evs := by
  simp [lastWithIP, List.foldl_append]

/-- C1 (amended): for every registry and every finite sequence of pod events
applied in order through `onPod` (any event tags), each pod carrying a pod IP,
a host IP and metadata with a name and a namespace, the sequence runs to its
end and afterwards, for every address `a`, the entry `podLabelsByIp[a]` is the
(host IP, labels, annotations) of the last event whose pod IP is `a`, or what
it was before the sequence if no event carries `a`; the node map is
unchanged. -/
theorem onPod_last_write_wins (evs : List (String × Pod)) (kr : K8SRegistry)
    (h : ∀ e ∈ evs, e.2.hasIPs = true ∧ e.2.named = true) :
    ∃ kr', applyPods evs kr = .ok kr' ∧ kr'.nodes = kr.nodes ∧
      ∀ a, kr'.podLabelsByIp a =
        match lastWithIP a evs with
        | some p => p.record
        | none => kr.podLabelsByIp a := by
  induction evs using List.reverseRecOn with
  | nil => exact ⟨kr, rfl, rfl, fun a => rfl⟩
  | append_singleton evs e ih =>
    obtain ⟨kr1, hrun, hnodes, hpods⟩ := ih (fun e' he' => h e' (by simp [he']))
    obtain ⟨ip, info, hip, hrec, hstep⟩ := onPod_upsert e.1 e.2 (h e (by simp))
    refine ⟨{ kr1 with podLabelsByIp := kr1.podLabelsByIp.set ip info }, ?_, ?_, ?_⟩
    · rw [applyPods_snoc, hrun, Run.bind_ok, hstep kr1]
    · exact hnodes
    · intro a
      rw [lastWithIP_snoc, hip]
      by_cases ha : ip = a
      · subst ha
        simp [GoMap.set, hrec]
      · have ha' : a ≠ ip := fun h' => ha h'.symm
        simp only [Option.some.injEq, ha, if_false]
        rw [← hpods a]
        simp [GoMap.set, ha']

/-- Witness of C1 (amended): two updates of 10.0.0.1 and one of 10.0.0.3 on a
registry that already holds 10.0.0.2. -/
theorem onPod_last_write_wins_witness :
    ∃ kr', applyPods
        [("ADDED", runningPod "web-0" "10.0.0.1" "192.168.0.5" "8" [("version", "v1")]),
         ("ADDED", runningPod "web-1" "10.0.0.3" "192.168.0.5" "9" []),
         ("MODIFIED", runningPod "web-0" "10.0.0.1" "192.168.0.5" "10" [("version", "v2")])]
        seededRegistry = .ok kr' ∧ kr'.nodes = seededRegistry.nodes ∧
      ∀ a, kr'.podLabelsByIp a =
        match lastWithIP a
          [("ADDED", runningPod "web-0" "10.0.0.1" "192.168.0.5" "8" [("version", "v1")]),
           ("ADDED", runningPod "web-1" "10.0.0.3" "192.168.0.5" "9" []),
           ("MODIFIED", runningPod "web-0" "10.0.0.1" "192.168.0.5" "10" [("version", "v2")])]
        with
        | some p => p.record
        | none => seededRegistry.podLabelsByIp a :=
  onPod_last_write_wins _ seededRegistry (by decide)

/-- C1 (as stated) fails: both pods of `lastWriteEvents` carry a pod IP and
a host IP, yet the run panics in the log line of the first event (its pod has
no namespace), the second event is never applied, and the entry of 10.0.0.1
is not the record of the last event; so the property does not hold for every
sequence of pods that carry both IPs. -/
theorem onPod_last_write_needs_metadata :
    (∀ e ∈ lastWriteEvents, e.2.hasIPs = true) ∧
    (applyPods lastWriteEvents NewK8SRegistry).isOk = false ∧
    lastWithIP "10.0.0.1" lastWriteEvents
      = some (runningPod "web-0" "10.0.0.1" "192.168.0.5" "8" [("version", "v2")]) ∧
    ((applyPods lastWriteEvents NewK8SRegistry).state).podLabelsByIp "10.0.0.1"
      = some ⟨"192.168.0.5", [("version", "v1")], []⟩ ∧
    (runningPod "web-0" "10.0.0.1" "192.168.0.5" "8" [("version", "v2")]).record
      = some ⟨"192.168.0.5", [("version", "v2")], []⟩ ∧
    ¬ (∀ (evs : List (String × Pod)) (kr : K8SRegistry),
        (∀ e ∈ evs, e.2.hasIPs = true) →
        ∃ kr', applyPods evs kr = .ok kr' ∧ kr'.nodes = kr.nodes ∧
          ∀ a, kr'.podLabelsByIp a =
            match lastWithIP a evs with
            | some p => p.record
            | none => kr.podLabelsByIp a) := by
  refine ⟨by decide, by rfl, by decide, by rfl, by rfl, fun h => ?_⟩
  obtain ⟨kr', h1, _⟩ := h lastWriteEvents NewK8SRegistry (by decide)
  have h2 : (applyPods lastWriteEvents NewK8SRegistry).isOk = false := rfl
  rw [h1] at h2
  cases h2

/-! ## The watch loop: requests carry the cursor -/

theorem requestsGood_nil : RequestsGood [] := by
  intro pre post rv t h
  cases pre <;> simp at h

theorem requestsGood_append (tr l : List Action) (h : RequestsGood tr)
    (hl : ∀ rv t, Action.watchReq rv t ∉ l) : RequestsGood (tr ++ l) := by
  intro pre post rv t heq
  rcases List.append_eq_append_iff.1 heq with ⟨a', _, h2⟩ | ⟨c', h1, h2⟩
  · exact absurd (by rw [h2]; simp) (hl rv t)
  · cases c' with
    | nil =>
      simp at h2
      exact absurd (by rw [← h2]; simp) (hl rv t)
    | cons x c'' =>
      simp at h2
      obtain ⟨hx, _⟩ := h2
      subst hx
      exact h pre c'' rv t h1

theorem requestsGood_snoc_req (tr : List Action) (rv : String) (h : RequestsGood tr)
    (hc : cursorAfter tr rv) : RequestsGood (tr ++ [Action.watchReq rv "300"]) := by
  intro pre post rv' t heq
  rcases List.append_eq_append_iff.1 heq with ⟨a', h1, h2⟩ | ⟨c', h1, h2⟩
  · cases a' with
    | nil =>
      simp at h1 h2
      obtain ⟨⟨hrv, ht⟩, _⟩ := h2
      subst h1 hrv ht
      exact ⟨rfl, hc⟩
    | cons x a'' => simp at h2
  · cases c' with
    | nil =>
      simp at h1 h2
      obtain ⟨⟨hrv, ht⟩, _⟩ := h2
      subst h1 hrv ht
      exact ⟨rfl, hc⟩
    | cons x c'' =>
      simp at h2
      obtain ⟨hx, _⟩ := h2
      subst hx
      exact h pre c'' rv' t h1

theorem lastEvent_append (tr l : List Action) :
    lastEvent (tr ++ l) = l.foldl (fun acc a => match a with
      | .event _ res => some res
      | _ => acc) (lastEvent tr) := by
  simp [lastEvent, List.foldl_append]

theorem cursorAfter_req (tr : List Action) (rv' t rv : String) :
    cursorAfter (tr ++ [Action.watchReq rv' t]) rv ↔ cursorAfter tr rv := by
  simp [cursorAfter, lastEvent_append]

theorem cursorAfter_req_fail (tr : List Action) (rv' t rv : String) :
    cursorAfter (tr ++ [Action.watchReq rv' t] ++ [Action.watchErr, Action.sleep 5]) rv
      ↔ cursorAfter tr rv := by
  simp [cursorAfter, lastEvent_append]

theorem cursorAfter_next_fail (tr : List Action) (rv : String) :
    cursorAfter (tr ++ [Action.nextErr, Action.sleep 5]) rv ↔ cursorAfter tr rv := by
  simp [cursorAfter, lastEvent_append]

theorem cursorAfter_event (tr : List Action) (ev : String) (res : Resource) (rv : String) :
    cursorAfter (tr ++ [Action.event ev res]) rv ↔ res.resourceVersion = some rv := by
  simp [cursorAfter, lastEvent_append]

theorem watchConnect_inv (c : WatchClient) (st : WatchState) (h : CursorInv st) :
    CursorInv (watchConnect c st).1 := by
  obtain ⟨hg, hc⟩ := h
  unfold watchConnect
  by_cases hwn : st.wn = true
  · simp only [hwn, if_true]
    exact ⟨hg, hc⟩
  · simp only [hwn]
    by_cases hw : c.Watch st.watchCalls = true
    · simp only [hw, if_true]
      exact ⟨requestsGood_snoc_req _ _ hg hc, (cursorAfter_req _ _ _ _).2 hc⟩
    · simp only [hw]
      refine ⟨requestsGood_append _ _ (requestsGood_snoc_req _ _ hg hc) (by simp), ?_⟩
      exact (cursorAfter_req_fail _ _ _ _).2 hc

theorem watchReceive_inv (c : WatchClient) (f : Option Handler) (st : WatchState)
    (h : CursorInv st) :
    RequestsGood ((watchReceive c f st).state).trace ∧
    ∀ st', watchReceive c f st = .ok st' → CursorInv st' := by
  obtain ⟨hg, hc⟩ := h
  unfold watchReceive
  cases hnext : c.Next st.nextCalls with
  | none =>
    simp only [Run.state, Run.ok.injEq]
    refine ⟨requestsGood_append _ _ hg (by simp), ?_⟩
    rintro st' rfl
    exact ⟨requestsGood_append _ _ hg (by simp), (cursorAfter_next_fail _ _).2 hc⟩
  | some p =>
    obtain ⟨evtype, res⟩ := p
    have hg' : RequestsGood (st.trace ++ [Action.event evtype res]) :=
      requestsGood_append _ _ hg (by simp)
    simp only
    cases hmd : res.GetMetadata with
    | none => exact ⟨hg', fun st' h' => by simp at h'⟩
    | some md =>
      simp only
      cases hrv : md.ResourceVersion with
      | none => exact ⟨hg', fun st' h' => by simp at h'⟩
      | some rv =>
        have hcur : cursorAfter (st.trace ++ [Action.event evtype res]) rv :=
          (cursorAfter_event _ _ _ _).2 (by simp [Resource.resourceVersion, hmd, hrv])
        simp only
        cases f with
        | none =>
          refine ⟨hg', ?_⟩
          rintro st' h'
          simp only [Run.ok.injEq] at h'
          subst h'
          exact ⟨hg', hcur⟩
        | some hdl =>
          simp only
          cases hh : hdl evtype res st.kr with
          | ok kr' =>
            refine ⟨hg', ?_⟩
            rintro st' h'
            simp only [Run.ok.injEq] at h'
            subst h'
            exact ⟨hg', hcur⟩
          | panic kr' => exact ⟨hg', fun st' h' => by simp at h'⟩

theorem watchIter_inv (c : WatchClient) (f : Option Handler) (st : WatchState)
    (h : CursorInv st) :
    RequestsGood ((watchIter c f st).state).trace ∧
    ∀ st', watchIter c f st = .ok st' → CursorInv st' := by
  have h1 := watchConnect_inv c st h
  unfold watchIter
  rcases hconn : watchConnect c st with ⟨st1, b⟩
  rw [hconn] at h1
  cases b with
  | false =>
    refine ⟨h1.1, ?_⟩
    rintro st' h'
    simp only [Run.ok.injEq] at h'
    subst h'
    exact h1
  | true => exact watchReceive_inv c f st1 h1

theorem watchLoop_inv (c : WatchClient) (f : Option Handler) (n : Nat) (st : WatchState)
    (h : CursorInv st) : RequestsGood ((watchLoop c f n st).state).trace := by
  induction n generalizing st with
  | zero => exact h.1
  | succ n ih =>
    have hi := watchIter_inv c f st h
    unfold watchLoop
    cases hit : watchIter c f st with
    | ok st' => exact ih st' (hi.2 st' hit)
    | panic st' =>
      rw [hit] at hi
      exact hi.1

theorem watchReceive_trace (c : WatchClient) (f : Option Handler) (st : WatchState) :
    ∃ a l, ((watchReceive c f st).state).trace = st.trace ++ a :: l := by
  unfold watchReceive
  cases hnext : c.Next st.nextCalls with
  | none => exact ⟨_, _, rfl⟩
  | some p =>
    obtain ⟨evtype, res⟩ := p
    simp only
    cases hmd : res.GetMetadata with
    | none => exact ⟨_, _, rfl⟩
    | some md =>
      simp only
      cases hrv : md.ResourceVersion with
      | none => exact ⟨_, _, rfl⟩
      | some rv =>
        simp only
        cases f with
        | none => exact ⟨_, _, rfl⟩
        | some hdl =>
          simp only
          cases hh : hdl evtype res st.kr with
          | ok kr' => exact ⟨_, _, rfl⟩
          | panic kr' => exact ⟨_, _, rfl⟩

theorem watchIter_starts_with_request (c : WatchClient) (f : Option Handler)
    (st : WatchState) (hwn : st.wn = false) :
    ∃ rest, ((watchIter c f st).state).trace
      = st.trace ++ Action.watchReq st.resourceVersion "300" :: rest := by
  unfold watchIter watchConnect
  simp only [hwn, Bool.false_eq_true, if_false]
  by_cases hw : c.Watch st.watchCalls = true
  · simp only [hw, if_true]
    obtain ⟨a, l, hl⟩ := watchReceive_trace c f
      { st with watchCalls := st.watchCalls + 1,
                trace := st.trace ++ [Action.watchReq st.resourceVersion "300"], wn := true }
    refine ⟨a :: l, ?_⟩
    rw [hl]
    simp
  · simp only [hw]
    exact ⟨[Action.watchErr, Action.sleep 5], by simp [Run.state]⟩

theorem watchIter_watch_fails (c : WatchClient) (f : Option Handler) (st : WatchState)
    (hwn : st.wn = false) (hw : c.Watch st.watchCalls = false) :
    ∃ st', watchIter c f st = .ok st' ∧ st'.wn = false ∧
      st'.resourceVersion = st.resourceVersion ∧
      st'.trace = st.trace ++
        [Action.watchReq st.resourceVersion "300", Action.watchErr, Action.sleep 5] := by
  unfold watchIter watchConnect
  simp only [hwn, hw, Bool.false_eq_true, if_false]
  exact ⟨_, rfl, rfl, rfl, by simp⟩

theorem watchReceive_next_fails (c : WatchClient) (f : Option Handler) (st : WatchState)
    (hn : c.Next st.nextCalls = none) :
    ∃ st', watchReceive c f st = .ok st' ∧ st'.wn = false ∧
      st'.resourceVersion = st.resourceVersion ∧
      st'.trace = st.trace ++ [Action.nextErr, Action.sleep 5] := by
  unfold watchReceive
  simp only [hn]
  exact ⟨_, rfl, rfl, rfl, rfl⟩

theorem cursorInv_init (kr : K8SRegistry) : CursorInv (watchInit kr) :=
  ⟨requestsGood_nil, rfl⟩

/-- C4: in the watch loop, whatever the client answers, every `Watch` request
carries `timeoutSeconds` 300 and a `resourceVersion` equal to that of the most
recent event received by the loop, or "0" if none has been received yet. A
failed `Watch` and a failed `Next` leave the cursor unchanged and the watcher
dropped, and a pass that starts without a watcher starts by issuing a `Watch`
request with the cursor it holds, so the request after the 5 seconds back-off
carries the cursor held just before the failure. -/
theorem watch_reconnect_reuses_cursor (c : WatchClient) (f : Option Handler)
    (kr : K8SRegistry) (n : Nat) :
    (∀ pre post rv t,
      ((watch c kr f n).state).trace = pre ++ Action.watchReq rv t :: post →
      t = "300" ∧ cursorAfter pre rv) ∧
    (∀ st : WatchState, st.wn = false → c.Watch st.watchCalls = false →
      ∃ st', watchIter c f st = .ok st' ∧ st'.wn = false ∧
        st'.resourceVersion = st.resourceVersion ∧
        st'.trace = st.trace ++
          [Action.watchReq st.resourceVersion "300", Action.watchErr, Action.sleep 5]) ∧
    (∀ st : WatchState, c.Next st.nextCalls = none →
      ∃ st', watchReceive c f st = .ok st' ∧ st'.wn = false ∧
        st'.resourceVersion = st.resourceVersion ∧
        st'.trace = st.trace ++ [Action.nextErr, Action.sleep 5]) ∧
    (∀ st : WatchState, st.wn = false →
      ∃ rest, ((watchIter c f st).state).trace
        = st.trace ++ Action.watchReq st.resourceVersion "300" :: rest) :=
  ⟨watchLoop_inv c f n (watchInit kr) (cursorInv_init kr),
   watchIter_watch_fails c f, watchReceive_next_fails c f,
   watchIter_starts_with_request c f⟩

/-! ## The watch loop: where the cursor starts -/

theorem watchIter_trace (c : WatchClient) (f : Option Handler) (st : WatchState) :
    ∃ a l, ((watchIter c f st).state).trace = st.trace ++ a :: l := by
  by_cases hwn : st.wn = true
  · unfold watchIter watchConnect
    simp only [hwn, if_true]
    exact watchReceive_trace c f st
  · have hwn' : st.wn = false := by simpa using hwn
    obtain ⟨rest, h⟩ := watchIter_starts_with_request c f st hwn'
    exact ⟨_, rest, h⟩

theorem watchLoop_trace (c : WatchClient) (f : Option Handler) (n : Nat) (st : WatchState) :
    ∃ l, ((watchLoop c f n st).state).trace = st.trace ++ l := by
  induction n generalizing st with
  | zero => exact ⟨[], by simp [watchLoop, Run.state]⟩
  | succ n ih =>
    obtain ⟨a, l, h⟩ := watchIter_trace c f st
    unfold watchLoop
    cases hit : watchIter c f st with
    | ok st' =>
      rw [hit] at h
      obtain ⟨l', h'⟩ := ih st'
      refine ⟨a :: l ++ l', ?_⟩
      simp only [Run.bind]
      rw [h']
      simp only [Run.state] at h
      rw [h]
      simp
    | panic st' =>
      rw [hit] at h
      exact ⟨a :: l, h⟩

theorem watch_first_action (c : WatchClient) (f : Option Handler) (kr : K8SRegistry)
    (n : Nat) :
    ∃ rest, ((watch c kr f (n + 1)).state).trace = Action.watchReq "0" "300" :: rest := by
  obtain ⟨rest, h⟩ := watchIter_starts_with_request c f (watchInit kr) rfl
  unfold watch watchLoop
  cases hit : watchIter c f (watchInit kr) with
  | ok st' =>
    rw [hit] at h
    obtain ⟨l', h'⟩ := watchLoop_trace c f n st'
    refine ⟨rest ++ l', ?_⟩
    simp only [Run.bind]
    rw [h']
    simp only [Run.state] at h
    rw [h]
    simp [watchInit]
  | panic st' =>
    rw [hit] at h
    exact ⟨rest, by simpa [watchInit, Run.bind] using h⟩

/-- C5 (amended): after `Sync` has succeeded and `Start` has launched the four
loops, the first action of each loop, for each of the four kinds and whatever
the listing of that kind returned, is a `Watch` request that carries the
constant resource version "0" (and a timeout of 300 seconds). -/
theorem first_watch_starts_at_zero {ε : Type} (c : ListClient ε) (kr : K8SRegistry)
    (r : SyncResult ε) (_hs : Sync c kr = .ok r) (_he : r.err = none)
    (w : Watcher) (_hw : w ∈ Start) (wc : WatchClient) (n : Nat) :
    ∃ rest, ((watch wc r.kr w.f (n + 1)).state).trace
      = Action.watchReq "0" "300" :: rest :=
  watch_first_action wc w.f r.kr n

/-- Witness of C5 (amended): the Pod loop after the bootstrap of `bootClient`. -/
theorem first_watch_starts_at_zero_witness :
    ∃ rest, ((watch quietStream ((Sync bootClient NewK8SRegistry).state).kr
        (some onPod) 1).state).trace = Action.watchReq "0" "300" :: rest :=
  first_watch_starts_at_zero bootClient NewK8SRegistry
    (Sync bootClient NewK8SRegistry).state rfl rfl ⟨.Pod, "Pod", some onPod⟩
    (by simp [Start]) quietStream 0

/-- C5 (as stated) fails: every listing of `bootClient` returns resource
version "42", `Sync` succeeds, and the first `Watch` request of each of the
four loops carries "0"; so the first request does not always carry the
version of the listing. -/
theorem first_watch_ignores_listing :
    (Sync bootClient NewK8SRegistry).isOk = true ∧
    ((Sync bootClient NewK8SRegistry).state).err = none ∧
    (Start.map fun w => bootClient.listedVersion w.kind)
      = [some "42", some "42", some "42", some "42"] ∧
    (Start.map fun w =>
        ((watch quietStream ((Sync bootClient NewK8SRegistry).state).kr w.f 1).state).trace.head?)
      = [some (Action.watchReq "0" "300"), some (Action.watchReq "0" "300"),
         some (Action.watchReq "0" "300"), some (Action.watchReq "0" "300")] ∧
    ¬ (∀ (c : ListClient String) (kr : K8SRegistry) (r : SyncResult String) (w : Watcher)
        (wc : WatchClient) (v : String),
        Sync c kr = .ok r → r.err = none → w ∈ Start → c.listedVersion w.kind = some v →
        ((watch wc r.kr w.f 1).state).trace.head? = some (Action.watchReq v "300")) := by
  refine ⟨rfl, rfl, rfl, rfl, fun h => ?_⟩
  have h1 := h bootClient NewK8SRegistry (Sync bootClient NewK8SRegistry).state
    ⟨.Pod, "Pod", some onPod⟩ quietStream "42" rfl rfl (by simp [Start]) rfl
  have h2 : ((watch quietStream ((Sync bootClient NewK8SRegistry).state).kr
      (some onPod) 1).state).trace.head? = some (Action.watchReq "0" "300") := rfl
  rw [h2] at h1
  simp at h1

/-! ## The watch loop: the cursor over time -/

theorem Run.bind_ok_right {σ : Type} (r : Run σ) : r.bind Run.ok = r := by
  cases r <;> rfl

theorem Run.bind_assoc {σ : Type} (r : Run σ) (g h : σ → Run σ) :
    (r.bind g).bind h = r.bind fun s => (g s).bind h := by
  cases r <;> rfl

theorem watchLoop_succ_last (c : WatchClient) (f : Option Handler) (n : Nat)
    (st : WatchState) :
    watchLoop c f (n + 1) st = (watchLoop c f n st).bind (watchIter c f) := by
  induction n generalizing st with
  | zero =>
    show (watchIter c f st).bind (watchLoop c f 0) = (Run.ok st).bind (watchIter c f)
    have : watchLoop c f 0 = Run.ok := rfl
    rw [this, Run.bind_ok_right]; rfl
  | succ n ih =>
    show (watchIter c f st).bind (watchLoop c f (n + 1))
      = ((watchIter c f st).bind (watchLoop c f n)).bind (watchIter c f)
    rw [Run.bind_assoc]
    congr 1
    funext s
    exact ih s

theorem watchLoop_ok_inv (c : WatchClient) (f : Option Handler) (I : WatchState → Prop)
    (hstep : ∀ st st', I st → watchIter c f st = .ok st' → I st')
    (n : Nat) (st st' : WatchState) (h0 : I st) (h : watchLoop c f n st = .ok st') :
    I st' := by
  induction n generalizing st with
  | zero =>
    simp only [watchLoop, Run.ok.injEq] at h
    exact h ▸ h0
  | succ n ih =>
    unfold watchLoop at h
    cases hit : watchIter c f st with
    | ok s1 =>
      rw [hit] at h
      exact ih s1 (hstep st s1 h0 hit) h
    | panic s1 =>
      rw [hit] at h
      simp [Run.bind] at h

theorem watchConnect_fields (c : WatchClient) (st : WatchState) :
    (watchConnect c st).1.resourceVersion = st.resourceVersion ∧
    (watchConnect c st).1.nextCalls = st.nextCalls ∧
    (watchConnect c st).1.kr = st.kr := by
  unfold watchConnect
  by_cases hwn : st.wn = true
  · simp [hwn]
  · by_cases hw : c.Watch st.watchCalls = true <;> simp [hwn, hw]

theorem rvLe_refl (a : String) : rvLe a a := Nat.le_refl _

theorem rvLe_zero (a : String) : rvLe "0" a := by
  show parseNat "0" ≤ parseNat a
  have : parseNat "0" = 0 := by decide
  omega

theorem watchReceive_ordered (c : WatchClient) (f : Option Handler) (st : WatchState)
    (hord : ∀ i j v w, i ≤ j → c.versionAt i = some v → c.versionAt j = some w → rvLe v w)
    (h : CursorSeen c st) :
    rvLe st.resourceVersion ((watchReceive c f st).state).resourceVersion ∧
    ∀ st', watchReceive c f st = .ok st' → CursorSeen c st' := by
  have hle : ∀ w, c.versionAt st.nextCalls = some w → rvLe st.resourceVersion w := by
    intro w hw
    rcases h with h0 | ⟨i, hi, hv⟩
    · rw [h0]; exact rvLe_zero w
    · exact hord i st.nextCalls _ w (Nat.le_of_lt hi) hv hw
  have hkeep : ∀ s : WatchState, s.resourceVersion = st.resourceVersion →
      s.nextCalls = st.nextCalls + 1 → CursorSeen c s := by
    intro s h1 h2
    rcases h with h0 | ⟨i, hi, hv⟩
    · exact Or.inl (by rw [h1, h0])
    · exact Or.inr ⟨i, by omega, by rw [h1]; exact hv⟩
  unfold watchReceive
  cases hnext : c.Next st.nextCalls with
  | none =>
    refine ⟨rvLe_refl _, ?_⟩
    rintro st' h'
    simp only [Run.ok.injEq] at h'
    subst h'
    exact hkeep _ rfl rfl
  | some p =>
    obtain ⟨evtype, res⟩ := p
    simp only
    cases hmd : res.GetMetadata with
    | none => exact ⟨rvLe_refl _, fun st' h' => by simp at h'⟩
    | some md =>
      simp only
      cases hrv : md.ResourceVersion with
      | none => exact ⟨rvLe_refl _, fun st' h' => by simp at h'⟩
      | some rv =>
        have hv : c.versionAt st.nextCalls = some rv := by
          simp [WatchClient.versionAt, hnext, Resource.resourceVersion, hmd, hrv]
        have hnew : ∀ s : WatchState, s.resourceVersion = rv →
            s.nextCalls = st.nextCalls + 1 → CursorSeen c s := by
          intro s h1 h2
          exact Or.inr ⟨st.nextCalls, by omega, by rw [h1]; exact hv⟩
        simp only
        cases f with
        | none =>
          refine ⟨hle rv hv, ?_⟩
          rintro st' h'
          simp only [Run.ok.injEq] at h'
          subst h'
          exact hnew _ rfl rfl
        | some hdl =>
          simp only
          cases hh : hdl evtype res st.kr with
          | ok kr' =>
            refine ⟨hle rv hv, ?_⟩
            rintro st' h'
            simp only [Run.ok.injEq] at h'
            subst h'
            exact hnew _ rfl rfl
          | panic kr' => exact ⟨hle rv hv, fun st' h' => by simp at h'⟩

theorem watchIter_ordered (c : WatchClient) (f : Option Handler) (st : WatchState)
    (hord : ∀ i j v w, i ≤ j → c.versionAt i = some v → c.versionAt j = some w → rvLe v w)
    (h : CursorSeen c st) :
    rvLe st.resourceVersion ((watchIter c f st).state).resourceVersion ∧
    ∀ st', watchIter c f st = .ok st' → CursorSeen c st' := by
  obtain ⟨h1, h2, _⟩ := watchConnect_fields c st
  have hseen : CursorSeen c (watchConnect c st).1 := by
    unfold CursorSeen
    rw [h1, h2]
    exact h
  unfold watchIter
  rcases hconn : watchConnect c st with ⟨st1, b⟩
  rw [hconn] at h1 h2 hseen
  simp only at h1 h2 hseen
  cases b with
  | false =>
    refine ⟨by simp only [Run.state]; rw [h1]; exact rvLe_refl _, ?_⟩
    rintro st' h'
    simp only [Run.ok.injEq] at h'
    subst h'
    exact hseen
  | true =>
    have := watchReceive_ordered c f st1 hord hseen
    rw [h1] at this
    exact this

theorem watchReceive_adopts (c : WatchClient) (f : Option Handler) (st st' : WatchState)
    (ev : String) (res : Resource) (hn : c.Next st.nextCalls = some (ev, res))
    (h : watchReceive c f st = .ok st') : res.resourceVersion = some st'.resourceVersion := by
  unfold watchReceive at h
  simp only [hn] at h
  cases hmd : res.GetMetadata with
  | none => simp [hmd] at h
  | some md =>
    simp only [hmd] at h
    cases hrv : md.ResourceVersion with
    | none => simp [hrv] at h
    | some rv =>
      simp only [hrv] at h
      have hres : res.resourceVersion = some rv := by
        simp [Resource.resourceVersion, hmd, hrv]
      cases f with
      | none =>
        simp only [Run.ok.injEq] at h
        subst h
        exact hres
      | some hdl =>
        simp only at h
        cases hh : hdl ev res st.kr with
        | ok kr' =>
          simp only [hh, Run.ok.injEq] at h
          subst h
          exact hres
        | panic kr' => simp [hh] at h

/-- C6 (amended): the loop compares nothing; on each event it stores the
resource version the event carries. Hence, when the stream delivers its events
in non-decreasing version order (decimal revisions, "0" being the least), the
cursor held after a pass of the loop is greater than or equal to the cursor
held before it, for every pass. -/
theorem cursor_monotone_on_ordered_stream (c : WatchClient) (f : Option Handler)
    (kr : K8SRegistry)
    (hord : ∀ i j v w, i ≤ j → c.versionAt i = some v → c.versionAt j = some w → rvLe v w)
    (n : Nat) :
    rvLe ((watch c kr f n).state).resourceVersion
      ((watch c kr f (n + 1)).state).resourceVersion ∧
    (∀ (st st' : WatchState) (ev : String) (res : Resource),
      c.Next st.nextCalls = some (ev, res) → watchReceive c f st = .ok st' →
      res.resourceVersion = some st'.resourceVersion) := by
  refine ⟨?_, fun st st' ev res => watchReceive_adopts c f st st' ev res⟩
  unfold watch
  rw [watchLoop_succ_last]
  cases hrun : watchLoop c f n (watchInit kr) with
  | panic s => exact rvLe_refl _
  | ok s =>
    have hseen : CursorSeen c s :=
      watchLoop_ok_inv c f (CursorSeen c)
        (fun a b ha hab => (watchIter_ordered c f a hord ha).2 b hab)
        n (watchInit kr) s (Or.inl rfl) hrun
    exact (watchIter_ordered c f s hord hseen).1

theorem orderedStream_ordered (i j : Nat) (v w : String) (hij : i ≤ j)
    (hv : orderedStream.versionAt i = some v) (hw : orderedStream.versionAt j = some w) :
    rvLe v w := by
  rcases i with _ | _ | i <;> rcases j with _ | _ | j <;>
    simp [WatchClient.versionAt, orderedStream, Resource.resourceVersion,
      Resource.GetMetadata, runningPod, fullMeta] at hv hw <;>
    first
    | omega
    | (subst hv; subst hw; decide)

/-- Witness of C6 (amended): the second pass over a stream that delivers
versions "5" and then "8". -/
theorem cursor_monotone_on_ordered_stream_witness :
    rvLe ((watch orderedStream NewK8SRegistry (some onPod) 1).state).resourceVersion
      ((watch orderedStream NewK8SRegistry (some onPod) 2).state).resourceVersion :=
  (cursor_monotone_on_ordered_stream orderedStream (some onPod) NewK8SRegistry
    orderedStream_ordered 1).1

/-- C6 (as stated) fails: on a stream that delivers a pod event at version
"5" and then one at version "3", both events are received and applied, and
the cursor goes from "5" back to "3"; so the cursor is not non-decreasing on
every stream. -/
theorem cursor_moves_backward :
    (watch regressingStream NewK8SRegistry (some onPod) 1).isOk = true ∧
    ((watch regressingStream NewK8SRegistry (some onPod) 1).state).resourceVersion = "5" ∧
    (watch regressingStream NewK8SRegistry (some onPod) 2).isOk = true ∧
    ((watch regressingStream NewK8SRegistry (some onPod) 2).state).resourceVersion = "3" ∧
    ((watch regressingStream NewK8SRegistry (some onPod) 2).state).trace
      = [Action.watchReq "0" "300",
         Action.event "MODIFIED" (.pod (runningPod "web-0" "10.0.0.1" "192.168.0.5" "5" [])),
         Action.event "MODIFIED" (.pod (runningPod "web-1" "10.0.0.2" "192.168.0.5" "3" []))] ∧
    ¬ rvLe "5" "3" ∧
    ¬ (∀ (c : WatchClient) (f : Option Handler) (kr : K8SRegistry) (n : Nat),
        rvLe ((watch c kr f n).state).resourceVersion
          ((watch c kr f (n + 1)).state).resourceVersion) := by
  refine ⟨rfl, rfl, rfl, rfl, rfl, by decide, fun h => ?_⟩
  have h1 := h regressingStream (some onPod) NewK8SRegistry 1
  have h2 : ((watch regressingStream NewK8SRegistry (some onPod) 1).state).resourceVersion
      = "5" := rfl
  have h3 : ((watch regressingStream NewK8SRegistry (some onPod) 2).state).resourceVersion
      = "3" := rfl
  rw [h2, h3] at h1
  exact absurd h1 (by decide)

/-! ## The watch loop: it never gives up -/

theorem handler_ok_of_populated (k : Kind) (ev : String) (r : Resource) (kr : K8SRegistry)
    (h : r.populated = true) : ∃ kr', k.handler ev r kr = .ok kr' := by
  cases k <;> cases r with
  | node n =>
    first
    | exact ⟨_, rfl⟩
    | (rcases n with ⟨_ | ⟨_ | name, _ | ns, rv, labels, ann⟩⟩ <;>
        simp [Resource.populated, ObjectMeta.named] at h
       exact ⟨_, rfl⟩)
  | pod p =>
    first
    | exact ⟨_, rfl⟩
    | (rcases p with ⟨_ | ⟨_ | name, _ | ns, rv, labels, ann⟩, _ | ⟨phase, _ | host, _ | ip⟩⟩ <;>
        simp [Resource.populated, ObjectMeta.named, Pod.named] at h <;>
        exact ⟨_, rfl⟩)
  | service s =>
    first
    | exact ⟨_, rfl⟩
    | (rcases s with ⟨_ | ⟨_ | name, _ | ns, rv, labels, ann⟩⟩ <;>
        simp [Resource.populated, ObjectMeta.named] at h
       exact ⟨_, rfl⟩)
  | endpoints e =>
    first
    | exact ⟨_, rfl⟩
    | (rcases e with ⟨_ | ⟨_ | name, _ | ns, rv, labels, ann⟩⟩ <;>
        simp [Resource.populated, ObjectMeta.named] at h
       exact ⟨_, rfl⟩)

theorem start_handler (w : Watcher) (hw : w ∈ Start) : w.f = some w.kind.handler := by
  simp only [Start, List.mem_cons, List.mem_singleton, List.not_mem_nil, or_false] at hw
  rcases hw with rfl | rfl | rfl | rfl <;> rfl

theorem backsOff_of_plain (a b : Action) (h1 : a.isFailure = false) (h2 : a ≠ Action.sleep 5) :
    backsOff a b :=
  ⟨fun h => (by rw [h1] at h; cases h), fun h => absurd h h2⟩

theorem getLast?_snoc_mem {α : Type} (l : List α) (a x : α)
    (h : x ∈ (l ++ [a]).getLast?) : x = a := by
  simp [List.getLast?_append] at h
  exact h.symm

theorem getLast?_snoc2_mem {α : Type} (l : List α) (a b x : α)
    (h : x ∈ (l ++ [a, b]).getLast?) : x = b := by
  simp [List.getLast?_append] at h
  exact h.symm

theorem watchConnect_backoff (c : WatchClient) (st : WatchState) (h : BackoffInv st) :
    BackoffInv (watchConnect c st).1 ∧
    ((watchConnect c st).2 = true → (watchConnect c st).1.wn = true) := by
  obtain ⟨hch, hlast⟩ := h
  unfold watchConnect
  by_cases hwn : st.wn = true
  · rw [if_pos hwn]
    exact ⟨⟨hch, hlast⟩, fun _ => hwn⟩
  · have hreq : List.Chain' backsOff
        (st.trace ++ [Action.watchReq st.resourceVersion "300"]) := by
      refine List.Chain'.append hch (List.chain'_singleton _) ?_
      intro x hx y hy
      simp only [List.head?_cons, Option.mem_def, Option.some.injEq] at hy
      subst hy
      obtain ⟨hf, _⟩ := hlast x hx
      exact ⟨fun h' => (by rw [hf] at h'; cases h'), fun _ => ⟨_, rfl⟩⟩
    have hwn' : st.wn = false := by simpa using hwn
    simp only [hwn', Bool.false_eq_true, if_false]
    by_cases hw : c.Watch st.watchCalls = true
    · simp only [hw, if_true]
      refine ⟨⟨hreq, ?_⟩, by simp⟩
      intro a ha
      have := getLast?_snoc_mem _ _ _ ha
      subst this
      exact ⟨rfl, fun h' => by cases h'⟩
    · simp only [hw, Bool.false_eq_true, if_false]
      refine ⟨⟨?_, ?_⟩, fun h' => by simp at h'⟩
      · refine List.Chain'.append hreq ?_ ?_
        · exact List.chain'_pair.2 ⟨fun _ => rfl, fun h' => by cases h'⟩
        · intro x hx y hy
          have := getLast?_snoc_mem _ _ _ hx
          simp only [List.head?_cons, Option.mem_def, Option.some.injEq] at hy
          subst this hy
          exact backsOff_of_plain _ _ rfl (fun h' => by cases h')
      · intro a ha
        have := getLast?_snoc2_mem _ _ _ _ ha
        subst this
        exact ⟨rfl, fun _ => rfl⟩

theorem watchReceive_backoff (c : WatchClient) (k : Kind) (st : WatchState)
    (hev : ∀ i ev res, c.Next i = some (ev, res) →
      res.populated = true ∧ res.resourceVersion.isSome = true)
    (h : BackoffInv st) (hwn : st.wn = true) :
    ∃ st', watchReceive c (some k.handler) st = .ok st' ∧ BackoffInv st' := by
  obtain ⟨hch, hlast⟩ := h
  have hplain : ∀ x ∈ st.trace.getLast?, ∀ y, backsOff x y := by
    intro x hx y
    obtain ⟨hf, hs⟩ := hlast x hx
    refine backsOff_of_plain x y hf ?_
    intro hx5
    have := hs hx5
    rw [hwn] at this
    cases this
  unfold watchReceive
  cases hnext : c.Next st.nextCalls with
  | none =>
    refine ⟨_, rfl, ?_, ?_⟩
    · refine List.Chain'.append hch ?_ ?_
      · exact List.chain'_pair.2 ⟨fun _ => rfl, fun h' => by cases h'⟩
      · intro x hx y _
        exact hplain x hx y
    · intro a ha
      have := getLast?_snoc2_mem _ _ _ _ ha
      subst this
      exact ⟨rfl, fun _ => rfl⟩
  | some p =>
    obtain ⟨evtype, res⟩ := p
    obtain ⟨hpop, hrv⟩ := hev st.nextCalls evtype res hnext
    obtain ⟨kr', hh⟩ := handler_ok_of_populated k evtype res st.kr hpop
    have hinv : ∀ s : WatchState, s.trace = st.trace ++ [Action.event evtype res] →
        BackoffInv s := by
      intro s hs
      refine ⟨?_, ?_⟩
      · rw [hs]
        refine List.Chain'.append hch (List.chain'_singleton _) ?_
        intro x hx y _
        exact hplain x hx y
      · intro a ha
        rw [hs] at ha
        have := getLast?_snoc_mem _ _ _ ha
        subst this
        exact ⟨rfl, fun h' => by cases h'⟩
    simp only
    cases hmd : res.GetMetadata with
    | none => simp [Resource.resourceVersion, hmd] at hrv
    | some md =>
      simp only
      cases hv : md.ResourceVersion with
      | none => simp [Resource.resourceVersion, hmd, hv] at hrv
      | some rv =>
        simp only [hh]
        exact ⟨_, rfl, hinv _ rfl⟩

theorem watchIter_backoff (c : WatchClient) (k : Kind) (st : WatchState)
    (hev : ∀ i ev res, c.Next i = some (ev, res) →
      res.populated = true ∧ res.resourceVersion.isSome = true)
    (h : BackoffInv st) :
    ∃ st', watchIter c (some k.handler) st = .ok st' ∧ BackoffInv st' := by
  obtain ⟨h1, h2⟩ := watchConnect_backoff c st h
  unfold watchIter
  rcases hconn : watchConnect c st with ⟨st1, b⟩
  rw [hconn] at h1 h2
  cases b with
  | false => exact ⟨st1, rfl, h1⟩
  | true => exact watchReceive_backoff c k st1 hev h1 (h2 rfl)

theorem watchLoop_backoff (c : WatchClient) (k : Kind)
    (hev : ∀ i ev res, c.Next i = some (ev, res) →
      res.populated = true ∧ res.resourceVersion.isSome = true)
    (n : Nat) (st : WatchState) (h : BackoffInv st) :
    ∃ st', watchLoop c (some k.handler) n st = .ok st' ∧ BackoffInv st' := by
  induction n generalizing st with
  | zero => exact ⟨st, rfl, h⟩
  | succ n ih =>
    obtain ⟨s1, hs1, hinv1⟩ := watchIter_backoff c k st hev h
    obtain ⟨s2, hs2, hinv2⟩ := ih s1 hinv1
    refine ⟨s2, ?_, hinv2⟩
    unfold watchLoop
    rw [hs1]
    exact hs2

theorem backoffInv_init (kr : K8SRegistry) : BackoffInv (watchInit kr) :=
  ⟨List.chain'_nil, fun a ha => by simp [watchInit] at ha⟩

theorem watchIter_of_connected (c : WatchClient) (f : Option Handler) (st : WatchState)
    (hwn : st.wn = true) : watchIter c f st = watchReceive c f st := by
  unfold watchIter watchConnect
  simp only [hwn, if_true]

/-- C8 (amended): for each of the four loops launched by `Start` and every
infinite sequence of client outcomes in which every event returned by `Next`
carries a resource version and a populated resource, the loop is still running
after any number of passes (its body has no `return`, and no pass panics) and
every pass adds at least one action; in what it has done so far, every failure
of `Watch` or `Next` is directly followed by a sleep of 5 seconds and every
such sleep by a `Watch` request with a timeout of 300 seconds, the sleep that
ends the trace being followed by the request that opens the next pass; and a
`Watch` or `Next` call that fails in the next pass shows in the trace as that
failure followed by the sleep. -/
theorem watch_never_gives_up (c : WatchClient) (w : Watcher) (hw : w ∈ Start)
    (kr : K8SRegistry)
    (hev : ∀ i ev res, c.Next i = some (ev, res) →
      res.populated = true ∧ res.resourceVersion.isSome = true)
    (n : Nat) :
    ∃ st st', watch c kr w.f n = .ok st ∧ watch c kr w.f (n + 1) = .ok st' ∧
      List.Chain' backsOff st.trace ∧
      (∀ a ∈ st.trace.getLast?, a.isFailure = false) ∧
      (∃ a l, st'.trace = st.trace ++ a :: l) ∧
      (st.trace.getLast? = some (Action.sleep 5) →
        ∃ rest, st'.trace = st.trace ++ Action.watchReq st.resourceVersion "300" :: rest) ∧
      (st.wn = false → c.Watch st.watchCalls = false →
        st'.trace = st.trace ++
          [Action.watchReq st.resourceVersion "300", Action.watchErr, Action.sleep 5]) ∧
      (st.wn = true → c.Next st.nextCalls = none →
        st'.trace = st.trace ++ [Action.nextErr, Action.sleep 5]) := by
  rw [start_handler w hw]
  obtain ⟨st, hst, hinv⟩ := watchLoop_backoff c w.kind hev n (watchInit kr) (backoffInv_init kr)
  obtain ⟨st', hst', _⟩ := watchIter_backoff c w.kind st hev hinv
  have hnext : watch c kr (some w.kind.handler) (n + 1) = .ok st' := by
    unfold watch
    rw [watchLoop_succ_last, hst]
    exact hst'
  refine ⟨st, st', hst, hnext, hinv.1, fun a ha => (hinv.2 a ha).1, ?_, ?_, ?_, ?_⟩
  · have := watchIter_trace c (some w.kind.handler) st
    rw [hst'] at this
    exact this
  · intro hlast
    have hwn : st.wn = false := (hinv.2 _ hlast).2 rfl
    have := watchIter_starts_with_request c (some w.kind.handler) st hwn
    rw [hst'] at this
    exact this
  · intro hwn hw'
    obtain ⟨s, hs, _, _, htr⟩ := watchIter_watch_fails c (some w.kind.handler) st hwn hw'
    rw [hst'] at hs
    cases hs
    exact htr
  · intro hwn hn
    obtain ⟨s, hs, _, _, htr⟩ := watchReceive_next_fails c (some w.kind.handler) st hn
    rw [← watchIter_of_connected c _ st hwn, hst'] at hs
    cases hs
    exact htr

theorem flakyStream_populated (i : Nat) (ev : String) (res : Resource)
    (h : flakyStream.Next i = some (ev, res)) :
    res.populated = true ∧ res.resourceVersion.isSome = true := by
  rcases i with _ | _ | _ | i <;> simp [flakyStream] at h <;>
    (obtain ⟨_, h⟩ := h; subst h; exact ⟨rfl, rfl⟩)

/-- Witness of C8 (amended): the Pod loop on `flakyStream`, after five
passes. -/
theorem watch_never_gives_up_witness :
    ∃ st st', watch flakyStream NewK8SRegistry (some onPod) 5 = .ok st ∧
      watch flakyStream NewK8SRegistry (some onPod) 6 = .ok st' ∧
      List.Chain' backsOff st.trace ∧
      (∀ a ∈ st.trace.getLast?, a.isFailure = false) ∧
      (∃ a l, st'.trace = st.trace ++ a :: l) := by
  obtain ⟨st, st', h1, h2, h3, h4, h5, _⟩ :=
    watch_never_gives_up flakyStream ⟨.Pod, "Pod", some onPod⟩ (by simp [Start])
      NewK8SRegistry flakyStream_populated 5
  exact ⟨st, st', h1, h2, h3, h4, h5⟩

/-- C8 (as stated) fails: on a stream whose first event carries a node with a
name and nothing else, the Node loop panics at
`*k8sRes.GetMetadata().ResourceVersion` in its first pass and does nothing
afterwards; so the loops launched by `Start` do not keep running on every
sequence of client outcomes. -/
theorem watch_halts_on_bare_node :
    (watch haltingStream NewK8SRegistry (some onNode) 1).isOk = false ∧
    ((watch haltingStream NewK8SRegistry (some onNode) 1).state).trace
      = [Action.watchReq "0" "300", Action.event "ADDED" (.node loaderNode)] ∧
    (watch haltingStream NewK8SRegistry (some onNode) 4).isOk = false ∧
    ((watch haltingStream NewK8SRegistry (some onNode) 4).state).trace
      = [Action.watchReq "0" "300", Action.event "ADDED" (.node loaderNode)] ∧
    ¬ (∀ (c : WatchClient) (w : Watcher) (kr : K8SRegistry) (n : Nat), w ∈ Start →
        (watch c kr w.f n).isOk = true) := by
  refine ⟨rfl, rfl, rfl, rfl, fun h => ?_⟩
  have h1 := h haltingStream ⟨.Node, "Node", some onNode⟩ NewK8SRegistry 1 (by simp [Start])
  have h2 : (watch haltingStream NewK8SRegistry (some onNode) 1).isOk = false := rfl
  rw [h2] at h1
  cases h1

/-! ## Bootstrap -/

theorem dispatchAll_append (l1 l2 : List Dispatch) (kr : K8SRegistry) :
    dispatchAll (l1 ++ l2) kr = (dispatchAll l1 kr).bind (dispatchAll l2) := by
  induction l1 generalizing kr with
  | nil => rfl
  | cons d l1 ih =>
    cases hd : d.kind.handler d.ev d.resource kr with
    | ok kr' =>
      rw [List.cons_append, dispatchAll_cons_ok d _ kr kr' hd,
        dispatchAll_cons_ok d _ kr kr' hd]
      exact ih kr'
    | panic kr' =>
      rw [List.cons_append, dispatchAll_cons_panic d _ kr kr' hd,
        dispatchAll_cons_panic d _ kr kr' hd]
      rfl

theorem applyItems_cons_ok {ε : Type} (h : Handler) (k : Kind) (item : Resource)
    (items : List Resource) (s : SyncResult ε) (kr' : K8SRegistry)
    (hh : h "sync" item s.kr = .ok kr') :
    applyItems h k (item :: items) s
      = applyItems h k items
          { err := s.err, kr := kr', trace := s.trace ++ [SyncAction.handle k "sync" item] } := by
  simp only [applyItems, List.foldl_cons, Run.bind, hh]

theorem applyItems_ok {ε : Type} (k : Kind) (items : List Resource) (s : SyncResult ε)
    (hpop : ∀ r ∈ items, r.populated = true) :
    ∃ kr', dispatchAll (items.map fun r => ⟨k, "sync", r⟩) s.kr = .ok kr' ∧
      applyItems k.handler k items s
        = .ok { err := s.err, kr := kr',
                trace := s.trace ++ items.map (SyncAction.handle k "sync") } := by
  induction items generalizing s with
  | nil => exact ⟨s.kr, rfl, by simp [applyItems]⟩
  | cons item items ih =>
    obtain ⟨kr1, h1⟩ := handler_ok_of_populated k "sync" item s.kr (hpop item (by simp))
    obtain ⟨kr2, h2, h3⟩ := ih
      { err := s.err, kr := kr1, trace := s.trace ++ [SyncAction.handle k "sync" item] }
      (fun r hr => hpop r (by simp [hr]))
    refine ⟨kr2, ?_, ?_⟩
    · rw [List.map_cons, dispatchAll_cons_ok _ _ s.kr kr1 h1]
      exact h2
    · rw [applyItems_cons_ok k.handler k item items s kr1 h1, h3]
      simp

theorem handled_append (a b : List SyncAction) : handled (a ++ b) = handled a ++ handled b := by
  simp [handled, List.filterMap_append]

theorem handled_list (k : Kind) : handled [SyncAction.list k] = [] := rfl

theorem handled_items (k : Kind) (items : List Resource) :
    handled (items.map (SyncAction.handle k "sync")) = items.map fun r => ⟨k, "sync", r⟩ := by
  induction items with
  | nil => rfl
  | cons r items ih =>
    simp only [List.map_cons]
    show _ :: handled (items.map (SyncAction.handle k "sync")) = _
    rw [ih]

theorem Sync_follows_plan {ε : Type} (c : ListClient ε) (kr : K8SRegistry)
    (hpop : c.populated) :
    ∃ r, Sync c kr = .ok r ∧ r.trace = (syncPlan c Kind.order).1 ∧
      r.err = (syncPlan c Kind.order).2 ∧
      dispatchAll (handled r.trace) kr = .ok r.kr := by
  unfold Sync
  cases hN : c.Nodes with
  | error e =>
    have i1 : c.items .Node = .error e := by simp [ListClient.items, hN, Except.map]
    refine ⟨_, rfl, ?_, ?_, ?_⟩ <;> simp [syncPlan, Kind.order, i1, handled, dispatchAll]
  | ok nodes =>
    have i1 : c.items .Node = .ok (nodes.Items.map Resource.node) := by
      simp [ListClient.items, hN, Except.map]
    obtain ⟨kr1, d1, a1⟩ := applyItems_ok (ε := ε) .Node (nodes.Items.map Resource.node)
      { err := none, kr := kr, trace := [SyncAction.list .Node] } (hpop _ _ i1)
    simp only [Kind.handler] at a1
    simp only [a1, Run.bind]
    cases hP : c.Pods with
    | error e =>
      have i2 : c.items .Pod = .error e := by simp [ListClient.items, hP, Except.map]
      refine ⟨_, rfl, ?_, ?_, ?_⟩
      · simp [syncPlan, Kind.order, i1, i2]
      · simp [syncPlan, Kind.order, i1, i2]
      · simp only [handled_append, handled_list, handled_items, List.nil_append,
          List.append_nil]
        exact d1
    | ok pods =>
      have i2 : c.items .Pod = .ok (pods.Items.map Resource.pod) := by
        simp [ListClient.items, hP, Except.map]
      obtain ⟨kr2, d2, a2⟩ := applyItems_ok (ε := ε) .Pod (pods.Items.map Resource.pod)
        { err := none, kr := kr1,
          trace := [SyncAction.list .Node]
            ++ (nodes.Items.map Resource.node).map (SyncAction.handle .Node "sync")
            ++ [SyncAction.list .Pod] } (hpop _ _ i2)
      simp only [Kind.handler] at a2
      simp only [a2, Run.bind]
      cases hS : c.Services with
      | error e =>
        have i3 : c.items .Service = .error e := by simp [ListClient.items, hS, Except.map]
        refine ⟨_, rfl, ?_, ?_, ?_⟩
        · simp [syncPlan, Kind.order, i1, i2, i3]
        · simp [syncPlan, Kind.order, i1, i2, i3]
        · simp only [handled_append, handled_list, handled_items, List.nil_append,
            List.append_nil]
          rw [dispatchAll_append, d1]
          exact d2
      | ok svcl =>
        have i3 : c.items .Service = .ok (svcl.Items.map Resource.service) := by
          simp [ListClient.items, hS, Except.map]
        obtain ⟨kr3, d3, a3⟩ := applyItems_ok (ε := ε) .Service
          (svcl.Items.map Resource.service)
          { err := none, kr := kr2,
            trace := [SyncAction.list .Node]
              ++ (nodes.Items.map Resource.node).map (SyncAction.handle .Node "sync")
              ++ [SyncAction.list .Pod]
              ++ (pods.Items.map Resource.pod).map (SyncAction.handle .Pod "sync")
              ++ [SyncAction.list .Service] } (hpop _ _ i3)
        simp only [Kind.handler] at a3
        simp only [a3, Run.bind]
        cases hE : c.EndpointsL with
        | error e =>
          have i4 : c.items .Endpoints = .error e := by
            simp [ListClient.items, hE, Except.map]
          refine ⟨_, rfl, ?_, ?_, ?_⟩
          · simp [syncPlan, Kind.order, i1, i2, i3, i4]
          · simp [syncPlan, Kind.order, i1, i2, i3, i4]
          · simp only [handled_append, handled_list, handled_items, List.nil_append,
              List.append_nil]
            rw [dispatchAll_append, dispatchAll_append, d1]
            simp only [Run.bind_ok, d2]
            exact d3
        | ok epl =>
          have i4 : c.items .Endpoints = .ok (epl.Items.map Resource.endpoints) := by
            simp [ListClient.items, hE, Except.map]
          obtain ⟨kr4, d4, a4⟩ := applyItems_ok (ε := ε) .Endpoints
            (epl.Items.map Resource.endpoints)
            { err := none, kr := kr3,
              trace := [SyncAction.list .Node]
                ++ (nodes.Items.map Resource.node).map (SyncAction.handle .Node "sync")
                ++ [SyncAction.list .Pod]
                ++ (pods.Items.map Resource.pod).map (SyncAction.handle .Pod "sync")
                ++ [SyncAction.list .Service]
                ++ (svcl.Items.map Resource.service).map (SyncAction.handle .Service "sync")
                ++ [SyncAction.list .Endpoints] } (hpop _ _ i4)
          simp only [Kind.handler] at a4
          refine ⟨_, a4, ?_, ?_, ?_⟩
          · simp [syncPlan, Kind.order, i1, i2, i3, i4]
          · simp [syncPlan, Kind.order, i1, i2, i3, i4]
          · simp only [handled_append, handled_list, handled_items, List.nil_append,
              List.append_nil]
            rw [dispatchAll_append, dispatchAll_append, dispatchAll_append, d1]
            simp only [Run.bind_ok, d2, d3]
            exact d4

theorem syncPlan_nil_iff {ε : Type} (c : ListClient ε) :
    (syncPlan c Kind.order).2 = none ↔ ∀ k, ∃ items, c.items k = .ok items := by
  constructor
  · intro h k
    cases h1 : c.items .Node <;> cases h2 : c.items .Pod <;>
      cases h3 : c.items .Service <;> cases h4 : c.items .Endpoints <;>
      simp [syncPlan, Kind.order, h1, h2, h3, h4] at h
    cases k
    · exact ⟨_, h1⟩
    · exact ⟨_, h2⟩
    · exact ⟨_, h3⟩
    · exact ⟨_, h4⟩
  · intro h
    obtain ⟨_, h1⟩ := h .Node
    obtain ⟨_, h2⟩ := h .Pod
    obtain ⟨_, h3⟩ := h .Service
    obtain ⟨_, h4⟩ := h .Endpoints
    simp [syncPlan, Kind.order, h1, h2, h3, h4]

theorem syncPlan_first_error {ε : Type} (c : ListClient ε) (k : Kind) (e : ε)
    (hk : c.items k = .error e)
    (hbefore : ∀ k', k'.index < k.index → ∃ items, c.items k' = .ok items) :
    (syncPlan c Kind.order).2 = some e ∧
    ∀ a ∈ (syncPlan c Kind.order).1,
      a.kind.index ≤ k.index ∧ ∀ ev res, a ≠ SyncAction.handle k ev res := by
  cases k with
  | Node =>
    simp [syncPlan, Kind.order, hk, SyncAction.kind]
  | Pod =>
    obtain ⟨_, h1⟩ := hbefore .Node (by decide)
    simp only [syncPlan, Kind.order, hk, h1]
    refine ⟨by simp, ?_⟩
    intro a ha
    simp only [List.cons_append, List.mem_cons, List.mem_append, List.mem_map,
      List.mem_singleton, List.not_mem_nil, or_false] at ha
    rcases ha with rfl | ⟨r, _, rfl⟩ | rfl <;>
      simp [SyncAction.kind, Kind.index]
  | Service =>
    obtain ⟨_, h1⟩ := hbefore .Node (by decide)
    obtain ⟨_, h2⟩ := hbefore .Pod (by decide)
    simp only [syncPlan, Kind.order, hk, h1, h2]
    refine ⟨by simp, ?_⟩
    intro a ha
    simp only [List.cons_append, List.mem_cons, List.mem_append, List.mem_map,
      List.mem_singleton, List.not_mem_nil, or_false] at ha
    rcases ha with rfl | ⟨r, _, rfl⟩ | rfl | ⟨r, _, rfl⟩ | rfl <;>
      simp [SyncAction.kind, Kind.index]
  | Endpoints =>
    obtain ⟨_, h1⟩ := hbefore .Node (by decide)
    obtain ⟨_, h2⟩ := hbefore .Pod (by decide)
    obtain ⟨_, h3⟩ := hbefore .Service (by decide)
    simp only [syncPlan, Kind.order, hk, h1, h2, h3]
    refine ⟨by simp, ?_⟩
    intro a ha
    simp only [List.cons_append, List.mem_cons, List.mem_append, List.mem_map,
      List.mem_singleton, List.not_mem_nil, or_false] at ha
    rcases ha with rfl | ⟨r, _, rfl⟩ | rfl | ⟨r, _, rfl⟩ | rfl | ⟨r, _, rfl⟩ | rfl <;>
      simp [SyncAction.kind, Kind.index]

theorem syncPlan_tags {ε : Type} (c : ListClient ε) (ks : List Kind) (k : Kind)
    (ev : String) (res : Resource) (h : SyncAction.handle k ev res ∈ (syncPlan c ks).1) :
    ev = "sync" ∧ ∃ items, c.items k = .ok items ∧ res ∈ items := by
  induction ks with
  | nil => simp [syncPlan] at h
  | cons k0 ks ih =>
    cases hk0 : c.items k0 with
    | error e => simp [syncPlan, hk0] at h
    | ok items =>
      simp only [syncPlan, hk0, List.cons_append, List.mem_cons, List.mem_append,
        List.mem_map] at h
      rcases h with h | ⟨r, hr, h⟩ | h
      · cases h
      · cases h
        exact ⟨rfl, items, hk0, hr⟩
      · exact ih h

theorem syncPlan_applies {ε : Type} (c : ListClient ε) (ks : List Kind) (k : Kind)
    (items : List Resource) (hk : c.items k = .ok items)
    (hl : SyncAction.list k ∈ (syncPlan c ks).1) (r : Resource) (hr : r ∈ items) :
    SyncAction.handle k "sync" r ∈ (syncPlan c ks).1 := by
  induction ks with
  | nil => simp [syncPlan] at hl
  | cons k0 ks ih =>
    cases hk0 : c.items k0 with
    | error e =>
      simp only [syncPlan, hk0, List.mem_singleton, SyncAction.list.injEq] at hl
      subst hl
      rw [hk] at hk0
      cases hk0
    | ok items0 =>
      simp only [syncPlan, hk0, List.cons_append, List.mem_cons, List.mem_append,
        List.mem_map, SyncAction.list.injEq] at hl ⊢
      rcases hl with hl | ⟨_, _, hl⟩ | hl
      · subst hl
        rw [hk] at hk0
        cases hk0
        exact Or.inr (Or.inl ⟨r, hr, rfl⟩)
      · cases hl
      · exact Or.inr (Or.inr (ih hl))

/-- C7 (amended): when every item of every successful listing is populated,
`Sync` returns; it lists the kinds in the order Node, Pod, Service, Endpoints
and hands every listed item to the handler of its kind with the tag "sync",
the registry it leaves being the one these handler calls produce; if the
listing of some kind is the first to fail, with error `e`, then `Sync` returns
exactly `e`, no later kind is listed and no item of the failing or of a later
kind is handled; and `Sync` returns `nil` if and only if all four listings
succeed. -/
theorem Sync_returns_first_error {ε : Type} (c : ListClient ε) (kr : K8SRegistry)
    (hpop : c.populated) :
    ∃ r, Sync c kr = .ok r ∧
      r.trace = (syncPlan c Kind.order).1 ∧
      r.err = (syncPlan c Kind.order).2 ∧
      dispatchAll (handled r.trace) kr = .ok r.kr ∧
      (∀ k ev res, SyncAction.handle k ev res ∈ r.trace →
        ev = "sync" ∧ ∃ items, c.items k = .ok items ∧ res ∈ items) ∧
      (∀ k items, c.items k = .ok items → SyncAction.list k ∈ r.trace →
        ∀ res ∈ items, SyncAction.handle k "sync" res ∈ r.trace) ∧
      (∀ k e, c.items k = .error e →
        (∀ k', k'.index < k.index → ∃ items, c.items k' = .ok items) →
        r.err = some e ∧
        ∀ a ∈ r.trace, a.kind.index ≤ k.index ∧ ∀ ev res, a ≠ SyncAction.handle k ev res) ∧
      (r.err = none ↔ ∀ k, ∃ items, c.items k = .ok items) := by
  obtain ⟨r, hrun, htr, herr, hkr⟩ := Sync_follows_plan c kr hpop
  refine ⟨r, hrun, htr, herr, hkr, ?_, ?_, ?_, ?_⟩
  · intro k ev res h
    rw [htr] at h
    exact syncPlan_tags c _ k ev res h
  · intro k items hk hl res hres
    rw [htr] at hl ⊢
    exact syncPlan_applies c _ k items hk hl res hres
  · intro k e hk hbefore
    rw [htr, herr]
    exact syncPlan_first_error c k e hk hbefore
  · rw [herr]
    exact syncPlan_nil_iff c

theorem bootClient_populated : bootClient.populated := by
  intro k items h r hr
  cases k <;> simp [ListClient.items, bootClient, Except.map] at h <;> subst h <;>
    simp at hr
  · rcases hr with rfl | rfl <;> rfl
  · subst hr; rfl

/-- Witness of C7 (amended): the bootstrap of `bootClient` returns `nil`. -/
theorem Sync_returns_first_error_witness :
    ∃ r, Sync bootClient NewK8SRegistry = .ok r ∧
      r.trace = (syncPlan bootClient Kind.order).1 ∧
      r.err = (syncPlan bootClient Kind.order).2 ∧
      dispatchAll (handled r.trace) NewK8SRegistry = .ok r.kr := by
  obtain ⟨r, h1, h2, h3, h4, _⟩ :=
    Sync_returns_first_error bootClient NewK8SRegistry bootClient_populated
  exact ⟨r, h1, h2, h3, h4⟩

/-- C7 (as stated) fails: the four listings of `lastItemClient` succeed and
all four are requested, but `Sync` does not return `nil`: it panics in the log
line of `onEP` on the only item, which lacks the namespace; so four
successful listings do not always make `Sync` return `nil`. -/
theorem Sync_panics_on_bare_item :
    (∀ k, ∃ items, lastItemClient.items k = .ok items) ∧
    (Sync lastItemClient NewK8SRegistry).isOk = false ∧
    ((Sync lastItemClient NewK8SRegistry).state).trace
      = [SyncAction.list .Node, SyncAction.list .Pod, SyncAction.list .Service,
         SyncAction.list .Endpoints,
         SyncAction.handle .Endpoints "sync"
           (.endpoints ⟨some { Name := some "kubernetes", Namespace := none,
                               ResourceVersion := some "3", Labels := [],
                               Annotations := [] }⟩)] ∧
    ¬ (∀ (c : ListClient String) (kr : K8SRegistry),
        (∀ k, ∃ items, c.items k = .ok items) →
        ∃ r, Sync c kr = .ok r ∧ r.err = none) := by
  have hall : ∀ k, ∃ items, lastItemClient.items k = .ok items := by
    intro k
    cases k <;> exact ⟨_, rfl⟩
  refine ⟨hall, rfl, rfl, fun h => ?_⟩
  obtain ⟨r, h1, _⟩ := h lastItemClient NewK8SRegistry hall
  have h2 : (Sync lastItemClient NewK8SRegistry).isOk = false := rfl
  rw [h1] at h2
  cases h2

/-! ## Paged listing -/

theorem decodeToken_encodeToken (off : Nat) : decodeToken (encodeToken off) = off := by
  simp [decodeToken, encodeToken]

theorem encodeToken_ne_empty (off : Nat) (h : 0 < off) : encodeToken off ≠ "" := by
  intro he
  have := congrArg decodeToken he
  rw [decodeToken_encodeToken] at this
  simp [decodeToken] at this
  omega

theorem limitOf_first : limitOf [("limit", "50")] = 50 := by decide

theorem limitOf_followUp (tok : String) : limitOf (followUp tok) = 10 := by
  have h10 : parseNat "10" = 10 := by decide
  simp [limitOf, followUp, List.lookup, h10]

theorem startOf_first (offsetOf : String → Option Nat) :
    startOf offsetOf [("limit", "50")] = some 0 := by
  have : ("continue" == "limit") = false := by decide
  simp [startOf, List.lookup, this]

theorem startOf_followUp (offsetOf : String → Option Nat) (tok : String) :
    startOf offsetOf (followUp tok) = offsetOf tok := by
  have : ("continue" == "limit") = false := by decide
  simp [startOf, followUp, List.lookup, this]

theorem pagedServer_honours {ε α : Type} (items : List α) (rv : String) :
    Honours (pagedServer (ε := ε) items rv) items (fun tok => some (decodeToken tok))
      (fun _ params => limitOf params) := by
  intro i params off hl hs
  beta_reduce
  refine ⟨hl, Nat.le_refl _, ?_⟩
  have hoff : (match params.lookup "continue" with
      | some tok => decodeToken tok
      | none => 0) = off := by
    unfold startOf at hs
    cases hc : params.lookup "continue" with
    | none => simpa [hc] using hs
    | some tok => simpa [hc] using hs
  have hlim : (match params.lookup "limit" with
      | some l => parseNat l
      | none => 0) = limitOf params := rfl
  by_cases hlast : (items.drop off).length ≤ limitOf params
  · have hdec : (limitOf params == 0 || decide ((items.drop off).length ≤ limitOf params))
        = true := by
      rw [Bool.or_eq_true]
      exact Or.inr (decide_eq_true hlast)
    refine ⟨{ Continue := some "", ResourceVersion := some rv }, "", ?_, rfl, ?_, ?_⟩
    · simp only [pagedServer, hoff, hlim, hdec, if_true, List.take_of_length_le hlast]
    · clear hlim hoff hdec
      simp only [List.length_drop] at hlast
      simp only [true_iff]
      omega
    · intro h; exact absurd rfl h
  · have hdec : (limitOf params == 0 || decide ((items.drop off).length ≤ limitOf params))
        = false := by
      have : ¬ limitOf params = 0 := by omega
      rw [Bool.or_eq_false_iff]
      exact ⟨by simpa using this, decide_eq_false hlast⟩
    refine ⟨{ Continue := some (encodeToken (off + limitOf params)),
              ResourceVersion := some rv }, encodeToken (off + limitOf params), ?_, rfl, ?_, ?_⟩
    · simp only [pagedServer, hoff, hlim, hdec, Bool.false_eq_true, if_false]
    · have hne' : encodeToken (off + limitOf params) ≠ "" :=
        encodeToken_ne_empty _ (by omega)
      clear hlim hoff hdec
      simp only [List.length_drop] at hlast
      constructor
      · intro h; exact absurd h hne'
      · intro h; omega
    · intro _
      simp [decodeToken_encodeToken]

theorem cappedServer_honours {ε α : Type} (cap : Nat) (hcap : 0 < cap) (items : List α)
    (rv : String) :
    Honours (cappedServer (ε := ε) cap items rv) items (fun tok => some (decodeToken tok))
      (fun _ params => min (limitOf params) cap) := by
  intro i params off hl hs
  beta_reduce
  refine ⟨by omega, Nat.min_le_left _ _, ?_⟩
  have hoff : (match params.lookup "continue" with
      | some tok => decodeToken tok
      | none => 0) = off := by
    unfold startOf at hs
    cases hc : params.lookup "continue" with
    | none => simpa [hc] using hs
    | some tok => simpa [hc] using hs
  by_cases hlast : (items.drop off).length ≤ min (limitOf params) cap
  · refine ⟨{ Continue := some "", ResourceVersion := some rv }, "", ?_, rfl, ?_, ?_⟩
    · simp only [cappedServer, hoff, hlast, if_true]
    · clear hoff
      simp only [List.length_drop] at hlast
      simp only [true_iff]
      omega
    · intro h; exact absurd rfl h
  · refine ⟨{ Continue := some (encodeToken (off + min (limitOf params) cap)),
              ResourceVersion := some rv },
        encodeToken (off + min (limitOf params) cap), ?_, rfl, ?_, ?_⟩
    · simp only [cappedServer, hoff, hlast, if_false]
    · have hne' : encodeToken (off + min (limitOf params) cap) ≠ "" :=
        encodeToken_ne_empty _ (by omega)
      clear hoff
      simp only [List.length_drop] at hlast
      constructor
      · intro h; exact absurd h hne'
      · intro h; omega
    · intro _
      simp [decodeToken_encodeToken]

theorem sizeSum_append {α : Type} (size : ListMeta → Nat) (a b : List (ResourceList α)) :
    sizeSum size (a ++ b) = sizeSum size a + sizeSum size b := by
  simp [sizeSum, List.filterMap_append]

theorem sizeSum_cons {α : Type} (size : ListMeta → Nat) (m : ListMeta) (page : List α)
    (b : List (ResourceList α)) :
    sizeSum size ({ Metadata := some m, Items := page } :: b) = size m + sizeSum size b := by
  simp [sizeSum, List.filterMap_cons]

theorem listPagedLoop_step {ε α : Type} (c : PagedClient ε α) (size : ListMeta → Nat)
    (nilSize : Option Nat) (n : String) (fuel : Nat) (tok : String) (st : PagedState ε α)
    (m : ListMeta) (tok' : String) (page : List α)
    (hresp : c.List st.requests.length (followUp tok)
      = (none, { Metadata := some m, Items := page }))
    (hcont : m.Continue = some tok') :
    listPagedLoop c size nilSize n (fuel + 1) tok st
      = if tok' = "" then
          some (.ok { total := st.total + size m,
                      requests := st.requests ++ [followUp tok],
                      pages := st.pages ++ [{ Metadata := some m, Items := page }],
                      log := st.log ++ [PagedLog.done n (st.total + size m)] })
        else
          listPagedLoop c size nilSize n fuel tok'
            { total := st.total + size m,
              requests := st.requests ++ [followUp tok],
              pages := st.pages ++ [{ Metadata := some m, Items := page }],
              log := st.log } := by
  simp only [followUp] at hresp ⊢
  conv_lhs => unfold listPagedLoop
  simp only [hresp, metaSize, continueOf, hcont]

theorem listPagedLoop_spec {ε α : Type} (c : PagedClient ε α) (items : List α)
    (offsetOf : String → Option Nat) (pageSize : Nat → Params → Nat)
    (hc : Honours c items offsetOf pageSize)
    (size : ListMeta → Nat) (nilSize : Option Nat) (n : String)
    (fuel off : Nat) (tok : String) (st : PagedState ε α)
    (htok : offsetOf tok = some off) (hoff : off < items.length)
    (hfuel : items.length - off ≤ fuel) :
    ∃ st' new,
      listPagedLoop c size nilSize n fuel tok st = some (.ok st') ∧
      st'.pages = st.pages ++ new ∧
      new ≠ [] ∧
      (new.map fun p => p.Items).flatten = items.drop off ∧
      (∀ p ∈ new.dropLast, continueOf p ≠ some "") ∧
      new.getLast?.bind continueOf = some "" ∧
      st'.requests = st.requests ++ (tok :: new.dropLast.filterMap continueOf).map followUp ∧
      st'.requests.length = st.requests.length + new.length ∧
      st'.total = st.total + sizeSum size new ∧
      st'.log = st.log ++ [PagedLog.done n st'.total] ∧
      ((∀ i params, pageSize i params = limitOf params) →
        new.length = (items.length - off + 9) / 10) := by
  induction fuel generalizing off tok st with
  | zero => omega
  | succ fuel ih =>
    obtain ⟨hs0, hsle, m, tok', hresp, hcont, hend, hnext⟩ :=
      hc st.requests.length (followUp tok) off (by rw [limitOf_followUp]; omega)
        (by rw [startOf_followUp]; exact htok)
    rw [limitOf_followUp] at hsle
    generalize hs : pageSize st.requests.length (followUp tok) = s at hs0 hsle hresp hend hnext
    rw [listPagedLoop_step c size nilSize n fuel tok st m tok' _ hresp hcont]
    by_cases hlast : tok' = ""
    · have hreach : items.length ≤ off + s := hend.1 hlast
      have htake : (items.drop off).take s = items.drop off :=
        List.take_of_length_le (by rw [List.length_drop]; omega)
      rw [if_pos hlast]
      refine ⟨_, [⟨some m, (items.drop off).take s⟩],
        rfl, rfl, by simp, ?_, ?_, ?_, ?_, ?_, ?_, rfl, ?_⟩
      · simp [htake]
      · simp
      · simp [continueOf, hcont, hlast]
      · simp
      · simp
      · simp [sizeSum]
      · intro hfull
        have := hfull st.requests.length (followUp tok)
        rw [limitOf_followUp, hs] at this
        simp only [List.length_singleton]
        omega
    · have hmore : ¬ items.length ≤ off + s := fun h => hlast (hend.2 h)
      rw [if_neg hlast]
      obtain ⟨st', new, hrun, hpages, hnew, hitems, htoks, hlastTok, hreqs, hrlen, htotal,
        hlog, hcount⟩ := ih (off + s) tok'
          ⟨st.total + size m, st.requests ++ [followUp tok],
            st.pages ++ [⟨some m, (items.drop off).take s⟩], st.log⟩
          (hnext hlast) (by omega) (by omega)
      refine ⟨st', ⟨some m, (items.drop off).take s⟩ :: new,
        hrun, ?_, by simp, ?_, ?_, ?_, ?_, ?_, ?_, hlog, ?_⟩
      · rw [hpages]; simp
      · simp only [List.map_cons, List.flatten_cons, hitems]
        rw [← List.drop_drop, List.take_append_drop]
      · intro p hp
        rw [List.dropLast_cons_of_ne_nil hnew, List.mem_cons] at hp
        rcases hp with rfl | hp
        · simp [continueOf, hcont, hlast]
        · exact htoks p hp
      · obtain ⟨q, new', hq⟩ := List.exists_cons_of_ne_nil hnew
        rw [hq, List.getLast?_cons_cons, ← hq]
        exact hlastTok
      · rw [hreqs, List.dropLast_cons_of_ne_nil hnew]
        simp [continueOf, hcont]
      · have hrlen' : st'.requests.length
            = (st.requests ++ [followUp tok]).length + new.length := hrlen
        rw [hrlen']
        simp only [List.length_append, List.length_cons, List.length_nil]
        omega
      · have htotal' : st'.total = (st.total + size m) + sizeSum size new := htotal
        rw [htotal', sizeSum_cons]
        omega
      · intro hfull
        have h10 := hfull st.requests.length (followUp tok)
        rw [limitOf_followUp, hs] at h10
        have := hcount hfull
        simp only [List.length_cons, this]
        omega

/-- C3 (amended): `listPaged` asks for a first page with `limit` 50 and for
every further page with `limit` 10 and the continuation token of the answer
before. For every collection of N items and every client that honours `limit`
and `continue` over it (each answer holds the next items of the collection, at
least one and at most `limit` of them, with a continuation token that is empty
exactly when the answer reaches the end of the collection), provided the first
answer does not already reach the end, `listPaged` returns after one `List`
request per answer; the items of the answers it receives are, in order,
exactly the N items, none duplicated or missed (it keeps none of them: `total`
is the sum of the sizes of the answers' metadata, which it logs); it stops at
the first answer whose continuation token is empty, which is the last; and
when every answer holds exactly `limit` items unless fewer remain, N > 50 and
the number of requests is exactly 1 + ⌈(N - 50) / 10⌉. -/
theorem listPaged_complete {ε α : Type} (c : PagedClient ε α) (items : List α)
    (offsetOf : String → Option Nat) (pageSize : Nat → Params → Nat)
    (size : ListMeta → Nat) (nilSize : Option Nat) (n : String) (fuel : Nat)
    (hc : Honours c items offsetOf pageSize)
    (hfirst : pageSize 0 [("limit", "50")] < items.length)
    (hfuel : items.length ≤ fuel) :
    ∃ st : PagedState ε α,
      listPaged c size nilSize n fuel = some (.ok st) ∧
      st.pages.length = st.requests.length ∧
      st.received = items ∧
      (∀ p ∈ st.pages.dropLast, continueOf p ≠ some "") ∧
      st.pages.getLast?.bind continueOf = some "" ∧
      st.requests
        = [("limit", "50")] :: (st.pages.dropLast.filterMap continueOf).map followUp ∧
      st.total = sizeSum size st.pages ∧
      st.log = [PagedLog.done n st.total] ∧
      ((∀ i params, pageSize i params = limitOf params) →
        50 < items.length ∧ st.requests.length = 1 + (items.length - 50 + 9) / 10) := by
  obtain ⟨hs0, hsle, m, tok, hresp, hcont, hend, hnext⟩ :=
    hc 0 [("limit", "50")] 0 (by rw [limitOf_first]; omega) (startOf_first offsetOf)
  rw [limitOf_first] at hsle
  generalize hs : pageSize 0 [("limit", "50")] = s at hs0 hsle hresp hend hnext hfirst
  have htokne : tok ≠ "" := by
    intro h
    have := hend.1 h
    omega
  obtain ⟨st', new, hrun, hpages, hnew, hitems, htoks, hlast, hreqs, hrlen, htotal, hlog,
    hcount⟩ := listPagedLoop_spec c items offsetOf pageSize hc size nilSize n fuel (0 + s) tok
      ⟨size m, [[("limit", "50")]], [⟨some m, (items.drop 0).take s⟩], []⟩
      (hnext htokne) (by omega) (by omega)
  have hpages : st'.pages = ⟨some m, (items.drop 0).take s⟩ :: new := hpages
  have hreqs : st'.requests
      = [("limit", "50")] :: (tok :: new.dropLast.filterMap continueOf).map followUp := hreqs
  have hrlen : st'.requests.length = 1 + new.length := hrlen
  have htotal : st'.total = size m + sizeSum size new := htotal
  have hlog : st'.log = [PagedLog.done n st'.total] := hlog
  refine ⟨st', ?_, ?_, ?_, ?_, ?_, ?_, ?_, ?_, ?_⟩
  · unfold listPaged
    simp only [hresp, metaSize, continueOf, hcont]
    exact hrun
  · rw [hrlen, hpages]
    simp only [List.length_cons]
    omega
  · simp only [PagedState.received, hpages, List.map_cons,
      List.flatten_cons, hitems, List.drop_zero, Nat.zero_add, List.take_append_drop]
  · intro p hp
    rw [hpages, List.dropLast_cons_of_ne_nil hnew, List.mem_cons] at hp
    rcases hp with rfl | hp
    · simp [continueOf, hcont, htokne]
    · exact htoks p hp
  · obtain ⟨q, new', hq⟩ := List.exists_cons_of_ne_nil hnew
    rw [hpages, hq, List.getLast?_cons_cons, ← hq]
    exact hlast
  · rw [hreqs, hpages, List.dropLast_cons_of_ne_nil hnew]
    simp [continueOf, hcont]
  · rw [htotal, hpages, sizeSum_cons]
  · exact hlog
  · intro hfull
    have h50 := hfull 0 [("limit", "50")]
    rw [limitOf_first, hs] at h50
    have := hcount hfull
    rw [hrlen, this]
    subst h50
    refine ⟨hfirst, ?_⟩
    omega

/-- Witness of C3 (amended): a collection of 73 items on the server
`pagedServer`, whose pages are full. -/
theorem listPaged_complete_witness :
    ∃ st : PagedState String Nat,
      listPaged (pagedServer (List.range 73) "42") (fun _ => 0) none "Endpoints" 73
        = some (.ok st) ∧
      st.pages.length = st.requests.length ∧
      st.received = List.range 73 ∧
      (∀ p ∈ st.pages.dropLast, continueOf p ≠ some "") ∧
      st.pages.getLast?.bind continueOf = some "" ∧
      st.requests
        = [("limit", "50")] :: (st.pages.dropLast.filterMap continueOf).map followUp ∧
      st.total = sizeSum (fun _ => 0) st.pages ∧
      st.log = [PagedLog.done "Endpoints" st.total] ∧
      ((∀ (i : Nat) (params : Params), (fun _ q => limitOf q) i params = limitOf params) →
        50 < (List.range 73).length ∧
        st.requests.length = 1 + ((List.range 73).length - 50 + 9) / 10) :=
  listPaged_complete (pagedServer (List.range 73) "42") (List.range 73)
    (fun tok => some (decodeToken tok)) (fun _ q => limitOf q) (fun _ => 0) none
    "Endpoints" 73 (pagedServer_honours (List.range 73) "42") (by decide) (by simp)

/-- C3 (as stated) fails: for a collection of five items served by a client
that honours `limit` and `continue`, the first answer holds all five items and
an empty continuation token, yet `listPaged` issues a second request, with an
empty `continue`, and receives the five items a second time: two requests
where ⌈5/50⌉ = ⌈5/10⌉ = 1, and ten items received. For a collection of a hundred
items it issues six requests, one with `limit` 50 and five with `limit` 10,
where ⌈100/50⌉ = 2 and ⌈100/10⌉ = 10. On a server that honours `limit` and
`continue` with answers of at most 7 items, 73 items take 11 requests (and
are received exactly), so the number of requests is fixed by N only when the
pages are full. So the items received are not, for every collection, exactly
its items. -/
theorem listPaged_repeats_short_collection :
    Honours (pagedServer fiveItems "42" : PagedClient String Nat) fiveItems
      (fun tok => some (decodeToken tok)) (fun _ params => limitOf params) ∧
    (listPaged (pagedServer fiveItems "42") (fun _ => 0) none "Endpoints" 5).map
        (fun (r : Run (PagedState String Nat)) =>
          (r.isOk, r.state.requests, r.state.pages.map continueOf, r.state.received))
      = some (true,
          [[("limit", "50")], [("limit", "10"), ("continue", "")]],
          [some "", some ""],
          [1, 2, 3, 4, 5, 1, 2, 3, 4, 5]) ∧
    fiveItems.length = 5 ∧ (5 + 50 - 1) / 50 = 1 ∧ (5 + 10 - 1) / 10 = 1 ∧
    (listPaged (pagedServer (List.range 100) "42") (fun _ => 0) none "Endpoints" 9).map
        (fun (r : Run (PagedState String Nat)) =>
          (r.isOk, r.state.requests.map fun q => q.lookup "limit"))
      = some (true, [some "50", some "10", some "10", some "10", some "10", some "10"]) ∧
    (100 + 50 - 1) / 50 = 2 ∧ (100 + 10 - 1) / 10 = 10 ∧
    Honours (cappedServer 7 (List.range 73) "42" : PagedClient String Nat) (List.range 73)
      (fun tok => some (decodeToken tok)) (fun _ params => min (limitOf params) 7) ∧
    (listPaged (cappedServer 7 (List.range 73) "42") (fun _ => 0) none "Endpoints" 73).map
        (fun (r : Run (PagedState String Nat)) =>
          (r.isOk, r.state.requests.length, decide (r.state.received = List.range 73)))
      = some (true, 11, true) ∧
    (73 + 50 - 1) / 50 = 2 ∧ (73 + 10 - 1) / 10 = 8 ∧
    ¬ (∀ (items : List Nat) (fuel : Nat), items.length < fuel →
        ∃ st : PagedState String Nat,
          listPaged (pagedServer items "42") (fun _ => 0) none "Endpoints" fuel
            = some (.ok st) ∧
          st.received = items) := by
  refine ⟨pagedServer_honours fiveItems "42", rfl, rfl, rfl, rfl, by decide, rfl, rfl,
    cappedServer_honours 7 (by decide) (List.range 73) "42", by decide, rfl, rfl,
    fun h => ?_⟩
  obtain ⟨st, h1, h2⟩ := h fiveItems 6 (by decide)
  have h3 : (listPaged (pagedServer fiveItems "42") (fun _ => 0) none "Endpoints" 6).map
      (fun (r : Run (PagedState String Nat)) => r.state.received)
      = some [1, 2, 3, 4, 5, 1, 2, 3, 4, 5] := rfl
  rw [h1] at h3
  simp only [Option.map_some', Run.state, Option.some.injEq] at h3
  rw [h2] at h3
  exact absurd h3 (by decide)

end Kubelite
